import Mathlib

/-!
# SPRgame server core: shallow embedding and verification

This file embeds the server-side game logic of the SPRgame repository
(`server/utils.js`, `server/skillManager.js`, `server/roomManager.js`,
`server/index.js`) in Lean 4 and proves properties of the embedded code.

Conventions of the embedding:
* JavaScript numbers used in scoring are exact here: card stats are integers
  and every scoring computation stays inside the dyadic rationals, where IEEE
  doubles are exact, so scores are modelled as `ℚ`.
* `Math.round` is `fun x => Int.floor (x + 1/2)` (JS rounds half toward +inf).
* JS objects used as string-keyed maps of `true` flags are modelled as
  `List String` (the list of keys that are set); `delete` is `List.filter`.
* A JS object used as a map built by repeated assignment / `Object.assign`
  is modelled as an association list where the *last* binding for a key wins
  (`jsObjGet`).
* `Array.prototype.pop` takes the *last* element of a list.
* `Array.prototype.sort` with a random comparator (the `shuffle` helper) is an
  unspecified permutation; functions that shuffle take a `shuffleF` parameter,
  and theorems that need it assume `∀ l, shuffleF l ~ l`.
* Drawing from an empty deck yields `undefined` in JS; the embedding returns
  `none` for such a draw, and pushing drawn cards into a hand keeps only the
  real cards (`filterMap id`).  All theorems about draws assume the deck holds
  enough cards, so this corner is never reached inside a proof.
-/

/-- A card template, as loaded from `cards.json` and passed around the server
(`server/utils.js`).  `characterBase` and `skill` are optional fields. -/
structure Card where
  id : Nat
  name : String
  vocal : Int
  dance : Int
  visual : Int
  rarity : String
  ctype : String
  group : String
  character : String
  characterBase : Option String
  skill : Option String
deriving DecidableEq, Repr

/-- An event template, as loaded from `events.json` (`server/utils.js`).
Optional parameters mirror the optional JS fields. -/
structure EventT where
  name : String
  effect : String
  etype : Option String
  rarity : Option (List String)
  group : Option String
  scoreBonus : Option Int
deriving DecidableEq, Repr

/-- JS `a || b` for an optional numeric field `a` with default `b`:
`0`, like `undefined`, is falsy. -/
def jsOrInt (o : Option Int) (d : Int) : Int :=
  match o with
  | some v => if v = 0 then d else v
  | none => d

/-- The modifier record built by `getEventModifiers` (`server/utils.js`). -/
structure Modifiers where
  statMinus : Option Int := none
  typeBonus : Option Int := none
  rarityBonus : Option Int := none
  groupBonus : Option Int := none
  characterBonus : Option Int := none
  maxStatZero : Bool := false
  drawCards : Option Int := none
  healWillpower : Option Int := none
  specialBattle : Bool := false
  revealCards : Bool := false
  shrimpCurse : Bool := false
deriving DecidableEq, Repr

/-- `card.characterBase || card.character` (empty string is falsy in JS). -/
def characterOf (card : Card) : String :=
  match card.characterBase with
  | some s => if s = "" then card.character else s
  | none => card.character

/-- `getEventModifiers(event, card)` from `server/utils.js`: translate the
active event into score-calculation modifiers.  `stat_minus_2` returns early
with only `statMinus`; the remaining branches each fill one field. -/
def getEventModifiers (event : Option EventT) (card : Card) : Modifiers :=
  match event with
  | none => {}
  | some e =>
    if e.effect = "none" then {}
    else if e.effect = "stat_minus_2" then { statMinus := some 2 }
    else
      { typeBonus :=
          if e.effect = "type_buff" ∧ e.etype = some card.ctype then
            some (jsOrInt e.scoreBonus 5)
          else none
        rarityBonus :=
          if e.effect = "rarity_buff" then
            match e.rarity with
            | some rs => if rs.contains card.rarity then some (jsOrInt e.scoreBonus 10) else none
            | none => none
          else none
        groupBonus :=
          if e.effect = "group_buff" ∧ e.group = some card.group then
            some (jsOrInt e.scoreBonus 5)
          else none
        characterBonus :=
          if e.effect = "sapphire_r" ∧ characterOf card = "Kohane" then
            some (jsOrInt e.scoreBonus 30)
          else none
        maxStatZero := e.effect = "max_stat_zero"
        drawCards := if e.effect = "draw_3" then some 3 else none
        healWillpower := if e.effect = "heal_1" then some 1 else none
        specialBattle := e.effect = "special_battle"
        revealCards := e.effect = "reveal_cards"
        shrimpCurse := e.effect = "shrimp_curse" }

/-- JS `Math.round` on an exact value: `floor (x + 1/2)` (JS rounds halves
toward positive infinity). -/
def jsRound (x : ℚ) : ℤ := ⌊x + 1/2⌋

/-- `Math.round(x * 10) / 10`: keep one decimal place. -/
def round1 (x : ℚ) : ℚ := (jsRound (x * 10) : ℚ) / 10

/-- The truthiness guard JS applies before using a numeric modifier field
(`if (modifiers.statMinus)` etc.): a stored `0` counts as absent. -/
def truthyInt (o : Option Int) : Option Int :=
  match o with
  | some v => if v = 0 then none else some v
  | none => none

/-- `calculateScore(card, type, event)` from `server/utils.js`.
Returns `0` for a missing card.  Order inside the function: stat penalty,
then `max_stat_zero`, then the base score (special battle or weighted sum
rounded to one decimal), then the flat score bonuses. -/
def calculateScore (card? : Option Card) (ctype : String) (event : Option EventT) : ℚ :=
  match card? with
  | none => 0
  | some card =>
    let v0 : Int := card.vocal
    let d0 : Int := card.dance
    let vi0 : Int := card.visual
    let modifiers := getEventModifiers event card
    let (v1, d1, vi1) :=
      match truthyInt modifiers.statMinus with
      | some s => (max 1 (v0 - s), max 1 (d0 - s), max 1 (vi0 - s))
      | none => (v0, d0, vi0)
    let (v, d, vi) :=
      if modifiers.maxStatZero then
        let maxStat := max v1 (max d1 vi1)
        (if v1 = maxStat then 0 else v1,
         if d1 = maxStat then 0 else d1,
         if vi1 = maxStat then 0 else vi1)
      else (v1, d1, vi1)
    let baseScore : ℚ :=
      if modifiers.specialBattle then (v : ℚ) + d + vi
      else if ctype = "vocal" then round1 ((v : ℚ) * 2 + (d : ℚ) * (3/2) + (vi : ℚ) * 1)
      else if ctype = "dance" then round1 ((d : ℚ) * 2 + (vi : ℚ) * (3/2) + (v : ℚ) * 1)
      else if ctype = "visual" then round1 ((vi : ℚ) * 2 + (v : ℚ) * (3/2) + (d : ℚ) * 1)
      else 0
    let scoreBonus : Int :=
      (match truthyInt modifiers.typeBonus with | some b => b | none => 0) +
      (match truthyInt modifiers.rarityBonus with | some b => b | none => 0) +
      (match truthyInt modifiers.groupBonus with | some b => b | none => 0) +
      (match truthyInt modifiers.characterBonus with | some b => b | none => 0)
    baseScore + (scoreBonus : ℚ)

example : calculateScore (some ⟨1, "a", 10, 5, 5, "normal", "love", "VS", "Miku", none, none⟩)
    "vocal" none = 65/2 := by
  simp only [calculateScore, getEventModifiers, truthyInt]
  norm_num [round1, jsRound]

example : calculateScore (some ⟨1, "a", 1, 1, 10, "normal", "love", "VS", "Miku", none, none⟩)
    "visual" (some ⟨"e", "stat_minus_2", none, none, none, none⟩) = 37/2 := by
  simp only [calculateScore, getEventModifiers, truthyInt, String.reduceEq, reduceIte]
  norm_num [round1, jsRound]

/-! ## Draw pile (`CardDeck` in `server/utils.js`) -/

/-- The per-room recycling draw pile: an `availableCards` list and a
`usedCards` list (`class CardDeck`). -/
structure CardDeck where
  availableCards : List Card
  usedCards : List Card
deriving DecidableEq, Repr

/-- `drawCard()`: if the available pile is empty, recycle the used pile
(shuffling it) and then `pop()` — take the *last* element of the available
list.  A `pop` from a completely empty deck yields JS `undefined`,
modelled as `none`. -/
def CardDeck.drawCard (shuffleF : List Card → List Card) (d : CardDeck) :
    Option Card × CardDeck :=
  let d :=
    if d.availableCards.isEmpty then
      { availableCards := shuffleF d.usedCards, usedCards := [] }
    else d
  match d.availableCards.getLast? with
  | some c => (some c, { d with availableCards := d.availableCards.dropLast })
  | none => (none, d)

/-- `drawCards(n)`: draw `n` times, collecting the results in order. -/
def CardDeck.drawCards (shuffleF : List Card → List Card) (n : Nat) (d : CardDeck) :
    List (Option Card) × CardDeck :=
  match n with
  | 0 => ([], d)
  | n + 1 =>
    let (c, d') := d.drawCard shuffleF
    let (cs, d'') := d'.drawCards shuffleF n
    (c :: cs, d'')

/-- `returnCard(card)`: push onto the used pile. -/
def CardDeck.returnCard (c : Card) (d : CardDeck) : CardDeck :=
  { d with usedCards := d.usedCards ++ [c] }

/-- `returnCards(cards)`: return each card in order. -/
def CardDeck.returnCards (cs : List Card) (d : CardDeck) : CardDeck :=
  cs.foldl (fun acc c => acc.returnCard c) d

/-- `deckCount().total`: cards currently inside the deck. -/
def CardDeck.total (d : CardDeck) : Nat :=
  d.availableCards.length + d.usedCards.length

/-- All cards currently inside the deck, as a multiset (order is irrelevant
because recycling shuffles). -/
def CardDeck.cards (d : CardDeck) : Multiset Card :=
  (d.availableCards : Multiset Card) + (d.usedCards : Multiset Card)

/-- A deck client operation: a draw of `n` cards into the clients' hands, or
the return of one previously drawn card.  (In the game, returned cards always
come from a player's hand, so a return whose card is not actually outstanding
is modelled as a no-op.) -/
inductive DeckOp where
  | draw (n : Nat)
  | giveBack (c : Card)
deriving DecidableEq, Repr

/-- A deck together with the multiset of cards handed out and not yet
returned (the cards in the players' hands). -/
structure DeckWorld where
  deck : CardDeck
  out : Multiset Card
deriving DecidableEq

/-- Run one client operation against the deck. -/
def applyDeckOp (shuffleF : List Card → List Card) (w : DeckWorld) : DeckOp → DeckWorld
  | .draw n =>
    let (cs, d') := w.deck.drawCards shuffleF n
    { deck := d', out := w.out + (cs.filterMap id : List Card) }
  | .giveBack c =>
    if c ∈ w.out then { deck := w.deck.returnCard c, out := w.out.erase c }
    else w

/-- Run a sequence of client operations. -/
def applyDeckOps (shuffleF : List Card → List Card) (w : DeckWorld) (ops : List DeckOp) :
    DeckWorld :=
  ops.foldl (applyDeckOp shuffleF) w

/-- All card instances in circulation: inside the deck or in hands. -/
def DeckWorld.circulating (w : DeckWorld) : Multiset Card :=
  w.deck.cards + w.out

/-! ## Players and rooms (`server/roomManager.js`, `server/index.js`) -/

/-- A player as created by `RoomManager.createRoom` / `joinRoom` / `addBot`
and mutated by the turn pipeline in `server/index.js`.  `playerId` is the
stable identity (`player_...`); `connId` is the socket id stored in `p.id`.
`needsGachaGod` is the deferred-draw flag set in PHASE 1 of `resolveTurn`. -/
structure PlayerSt where
  playerId : String
  connId : String
  name : String
  heart : Nat
  hand : List Card
  playedCard : Option Card
  action : Option String
  actionCooldown : Nat
  hasDecided : Bool
  isDead : Bool
  isDisconnected : Bool
  needsGachaGod : Bool
  chosenAction : Option String
  hasChosenAction : Bool
deriving DecidableEq, Repr

/-- `getPlayerKey(player) = player?.playerId || player?.id`
(`server/index.js`): the stable key, falling back to the socket id when the
stable id is falsy. -/
def getPlayerKey (p : PlayerSt) : String :=
  if p.playerId = "" then p.connId else p.playerId

/-- Per-player stat modifiers produced by a skill
(`SkillManager.activateSkill`). -/
structure StatMods where
  vocal : Option Int := none
  dance : Option Int := none
  visual : Option Int := none
deriving DecidableEq, Repr

/-- JS object lookup for a map built by repeated key assignment: the *last*
binding for the key wins. -/
def jsObjGet {α : Type} (l : List (String × α)) (k : String) : Option α :=
  l.foldl (fun acc kv => if kv.1 = k then some kv.2 else acc) none

/-- The mutable per-room game state used by the turn pipeline
(`server/index.js` / `server/roomManager.js`).  The JS string-keyed maps of
`true` flags (`protectedPlayers`, `skillBlockActive`, `divineCardActive`)
are the lists of keys currently set. -/
structure Room where
  players : List PlayerSt
  protectedPlayers : List String
  skillBlockActive : List String
  divineCardActive : List String
  event : EventT
  competition : String
  deck : CardDeck
deriving DecidableEq, Repr

/-! ## Skill manager (`server/skillManager.js`) -/

/-- The result record built by `SkillManager.activateSkill`: the textual
effect log and the per-player stat modifiers (keyed, in the source, by the
target player's `id`, i.e. the socket id). -/
structure ActivateResult where
  effects : List String
  statModifiers : List (String × StatMods)
deriving DecidableEq, Repr

/-- `SkillManager.isSkillBlocked(gameState, playerId)`: blocked when some
*other* key has an active hidden-skill block.  Note the comparison is between
a stored key (a socket id, set by `activateSkill`) and the key the caller
passes in (`getPlayerKey`, i.e. the stable player id, in `resolveTurn`). -/
def isSkillBlocked (skillBlockActive : List String) (playerKey : String) : Bool :=
  skillBlockActive.any (fun blockerId => blockerId ≠ playerKey)

/-- `SkillManager.activateSkill(skill, player, card, allPlayers, gameState, ...)`
for the player at index `i` of `room.players`.  All mutations of the room
and of players performed by the skill are returned in the new room;
`nextEventF` stands for the injected `getNextEvent` function used by
`fate control`.  Map entries are keyed by `player.id` (the socket id),
exactly as in the source. -/
def activateSkill (skill : Option String) (i : Nat) (room : Room)
    (nextEventF : EventT → EventT) : Room × ActivateResult :=
  match room.players[i]? with
  | none => (room, ⟨[], []⟩)
  | some player =>
    if skill = some "salt" then
      (room, ⟨["No effect"], []⟩)
    else if skill = some "leek shield" then
      ({ room with protectedPlayers := room.protectedPlayers ++ [player.connId] },
       ⟨["Protected from willpower loss this turn"], []⟩)
    else if skill = some "never give up" then
      let newHeart := min 6 (player.heart + 2)
      ({ room with players := room.players.set i { player with heart := newHeart } },
       ⟨["Restored willpower"], []⟩)
    else if skill = some "golden microphone" then
      (room, ⟨["+5 Vocal bonus applied"], [(player.connId, { vocal := some 5 })]⟩)
    else if skill = some "feet of fire" then
      (room, ⟨["+5 Dance bonus applied"], [(player.connId, { dance := some 5 })]⟩)
    else if skill = some "makeup shop visit" then
      (room, ⟨["+5 Visual bonus applied"], [(player.connId, { visual := some 5 })]⟩)
    else if skill = some "mic power cut" then
      let targets := room.players.filter
        (fun q => q.connId ≠ player.connId ∧ q.playedCard.isSome)
      (room, ⟨targets.map (fun q => "-5 Vocal debuff to " ++ q.name),
              targets.map (fun q => (q.connId, ({ vocal := some (-5) } : StatMods)))⟩)
    else if skill = some "freeze spell" then
      let targets := room.players.filter
        (fun q => q.connId ≠ player.connId ∧ q.playedCard.isSome)
      (room, ⟨targets.map (fun q => "-5 Dance debuff to " ++ q.name),
              targets.map (fun q => (q.connId, ({ dance := some (-5) } : StatMods)))⟩)
    else if skill = some "banana slip" then
      let targets := room.players.filter
        (fun q => q.connId ≠ player.connId ∧ q.playedCard.isSome)
      (room, ⟨targets.map (fun q => "-5 Visual debuff to " ++ q.name),
              targets.map (fun q => (q.connId, ({ visual := some (-5) } : StatMods)))⟩)
    else if skill = some "fate control" then
      if ["reveal_cards", "special_battle", "draw_3"].contains room.event.effect then
        (room, ⟨["Cannot change special event"], []⟩)
      else
        ({ room with event := nextEventF room.event }, ⟨["Changed event"], []⟩)
    else if skill = some "hidden skill" then
      ({ room with skillBlockActive := room.skillBlockActive ++ [player.connId] },
       ⟨["Other players skills blocked this turn"], []⟩)
    else if skill = some "gacha god" then
      (room, ⟨["Drew 2 random cards (Gacha God)"], []⟩)
    else if skill = some "divine card" then
      ({ room with divineCardActive := room.divineCardActive ++ [player.connId] },
       ⟨["Divine Card: Ready to revive on next turn if heart reaches 0"], []⟩)
    else
      (room, ⟨["Unknown skill"], []⟩)

/-- `SkillManager.clearTemporaryEffects(gameState)`: reset the shield and
skill-block maps, but keep `divineCardActive` for the next-turn check. -/
def clearTemporaryEffects (room : Room) : Room :=
  { room with protectedPlayers := [], skillBlockActive := [] }

/-- `SkillManager.checkDivineCardRevival(player, gameState, deck)` for the
player at index `i`: if the player has a pending divine flag (keyed by the
socket id), consume it; if the heart is exactly 0, revive to heart 1 and
draw 10 cards into the hand.  Returns the room and whether the player
revived. -/
def checkDivineCardRevival (shuffleF : List Card → List Card) (i : Nat) (room : Room) :
    Room × Bool :=
  match room.players[i]? with
  | none => (room, false)
  | some player =>
    if room.divineCardActive.contains player.connId then
      let room := { room with
        divineCardActive := room.divineCardActive.filter (fun k => k ≠ player.connId) }
      if player.heart = 0 then
        let (cards, deck') := room.deck.drawCards shuffleF 10
        let player' := { player with heart := 1, hand := player.hand ++ cards.filterMap id }
        ({ room with players := room.players.set i player', deck := deck' }, true)
      else (room, false)
    else (room, false)

/-! ## Turn resolution PHASE 1: skill activation (`resolveTurn`) -/

/-- One entry of the `skillEffects` log collected in `resolveTurn`. -/
structure SkillEffect where
  player : String
  skill : Option String
  blocked : Bool
  effects : List String
  modifiers : List (String × StatMods)
deriving DecidableEq, Repr

/-- The indices of `room.players` whose `playedCard` is set: the
`playersWithCards` array captured at the start of `resolveTurn`. -/
def playedIdxs (room : Room) : List Nat :=
  (List.range room.players.length).filter
    (fun i => ((room.players[i]?).map (fun p => p.playedCard.isSome)).getD false)

/-- PHASE 1 of `resolveTurn`: walk the played-card players in order; for each
whose action is Skill (`"2"`), either record a blocked entry (if an opposing
hidden skill is active) or activate the skill, additionally flagging
`needsGachaGod` for the gacha-god skill. -/
def phase1Go (nextEventF : EventT → EventT) :
    List Nat → Room → List SkillEffect → Room × List SkillEffect
  | [], room, acc => (room, acc)
  | i :: rest, room, acc =>
    match room.players[i]? with
    | none => phase1Go nextEventF rest room acc
    | some p =>
      if p.action = some "2" ∧ p.playedCard.isSome then
        if isSkillBlocked room.skillBlockActive (getPlayerKey p) then
          phase1Go nextEventF rest room
            (acc ++ [⟨p.name, p.playedCard.bind Card.skill, true,
                      ["Skill blocked by Hidden Skill"], []⟩])
        else
          let skill := p.playedCard.bind Card.skill
          let (room', res) := activateSkill skill i room nextEventF
          let room'' :=
            if skill = some "gacha god" then
              match room'.players[i]? with
              | some q => { room' with
                  players := room'.players.set i { q with needsGachaGod := true } }
              | none => room'
            else room'
          phase1Go nextEventF rest room''
            (acc ++ [⟨p.name, skill, false, res.effects, res.statModifiers⟩])
      else phase1Go nextEventF rest room acc

/-- PHASE 1, started on the captured `playersWithCards` index list. -/
def phase1 (nextEventF : EventT → EventT) (room : Room) : Room × List SkillEffect :=
  phase1Go nextEventF (playedIdxs room) room []

/-! ## Turn resolution PHASE 2: scores and action adjustments -/

/-- The `Object.assign` merge of all skills' `modifiers` into one
`statModifiers` object, in activation order. -/
def collectStatMods (effects : List SkillEffect) : List (String × StatMods) :=
  effects.foldl (fun acc se => acc ++ se.modifiers) []

/-- The scoring clone of a played card: each present (and truthy) stat
modifier is added, clamped below at 1 (`Math.max(1, ...)`). -/
def applyStatMods (card : Card) (m? : Option StatMods) : Card :=
  match m? with
  | none => card
  | some m =>
    let card :=
      match truthyInt m.vocal with
      | some x => { card with vocal := max 1 (card.vocal + x) }
      | none => card
    let card :=
      match truthyInt m.dance with
      | some x => { card with dance := max 1 (card.dance + x) }
      | none => card
    match truthyInt m.visual with
    | some x => { card with visual := max 1 (card.visual + x) }
    | none => card

/-- The per-player body of PHASE 2 of `resolveTurn`: build the scoring clone
(looking the modifiers up under `getPlayerKey`), run `calculateScore`, then
apply the action-specific adjustment — Gacha (`"1"`): −5 floored at 0;
Skill (`"2"`): set or extend the cooldown; Flee (`"4"`): score 0, return the
card to the hand, lose 1 heart; otherwise (Compete) the score as-is. -/
def scoreAndApply (competition : String) (event : EventT)
    (statModifiers : List (String × StatMods)) (p : PlayerSt) : PlayerSt × ℚ :=
  match p.playedCard with
  | none => (p, 0)
  | some card =>
    let scoringCard := applyStatMods card (jsObjGet statModifiers (getPlayerKey p))
    let score := calculateScore (some scoringCard) competition (some event)
    if p.action = some "1" then
      (p, max 0 (score - 5))
    else if p.action = some "2" then
      if p.actionCooldown > 0 then
        ({ p with actionCooldown := p.actionCooldown + 3 }, score)
      else
        ({ p with actionCooldown := 3 }, score)
    else if p.action = some "4" then
      ({ p with hand := p.hand ++ [card], heart := p.heart - 1 }, 0)
    else
      (p, score)

/-- PHASE 2 of `resolveTurn`: walk the played-card players in order,
mutating each and appending `(playerKey, actualScore)` to the scores map. -/
def phase2Go (competition : String) (event : EventT)
    (statModifiers : List (String × StatMods)) :
    List Nat → Room → List (String × ℚ) → Room × List (String × ℚ)
  | [], room, scores => (room, scores)
  | i :: rest, room, scores =>
    match room.players[i]? with
    | none => phase2Go competition event statModifiers rest room scores
    | some p =>
      let (p', s) := scoreAndApply competition event statModifiers p
      phase2Go competition event statModifiers rest
        { room with players := room.players.set i p' }
        (scores ++ [(getPlayerKey p, s)])

/-- The running maximum in PHASE 2 (`maxScore` starts at −1 and is replaced
whenever a strictly larger score appears). -/
def maxScoreOf (scores : List (String × ℚ)) : ℚ :=
  scores.foldl (fun m kv => if kv.2 > m then kv.2 else m) (-1)

/-! ## Turn resolution PHASE 3: heart loss -/

/-- PHASE 3 of `resolveTurn`: if every played-card player reached the
maximum score, nobody loses a heart; otherwise every played-card player
strictly below the maximum loses 1 heart unless shielded
(`protectedPlayers`, looked up under `getPlayerKey`) or fleeing
(action `"4"`). -/
def phase3 (room : Room) (scores : List (String × ℚ)) (maxScore : ℚ) : Room :=
  let pwc := room.players.filter (fun p => p.playedCard.isSome)
  let winners := pwc.filter (fun p => jsObjGet scores (getPlayerKey p) = some maxScore)
  if winners.length = pwc.length then room
  else
    { room with players := room.players.map (fun p =>
        if p.playedCard.isSome then
          match jsObjGet scores (getPlayerKey p) with
          | some s =>
            if s < maxScore then
              if room.protectedPlayers.contains (getPlayerKey p) then p
              else if p.action = some "4" then p
              else { p with heart := p.heart - 1 }
            else p
          | none => p
        else p) }

/-! ## Turn resolution PHASE 4: reveal list, recycling, deferred draws -/

/-- The face-up reveal list (`playedCardsForDisplay`): the played cards of
all non-flee players, captured before the cards are cleared. -/
def displayList (room : Room) : List (String × Card) :=
  (room.players.filter (fun p => p.playedCard.isSome ∧ p.action ≠ some "4")).filterMap
    (fun p => p.playedCard.map (fun c => (p.name, c)))

/-- PHASE 4 of `resolveTurn`: non-flee players return their card to the used
pile and queue deferred draws (Gacha: 1 card, gacha-god flag: 2 cards);
flee players keep the card in hand and recycle nothing.  Every played-card
player has `playedCard` cleared and `hasDecided` reset. -/
def phase4Go : List Nat → Room → List (Nat × Nat × String) → Room × List (Nat × Nat × String)
  | [], room, queue => (room, queue)
  | i :: rest, room, queue =>
    match room.players[i]? with
    | none => phase4Go rest room queue
    | some p =>
      if p.action ≠ some "4" then
        let deck' :=
          match p.playedCard with
          | some c => room.deck.returnCard c
          | none => room.deck
        let queue := queue ++ (if p.action = some "1" then [(i, 1, "gacha")] else [])
        let queue := queue ++ (if p.needsGachaGod then [(i, 2, "gachaGod")] else [])
        let p' := { p with playedCard := none, needsGachaGod := false, hasDecided := false }
        phase4Go rest { room with players := room.players.set i p', deck := deck' } queue
      else
        phase4Go rest
          { room with players :=
              room.players.set i { p with playedCard := none, hasDecided := false } }
          queue

/-- The outcome of one `resolveTurn` run, up to and including the
end-of-resolution `clearTemporaryEffects`. -/
structure ResolveResult where
  room : Room
  skillEffects : List SkillEffect
  statModifiers : List (String × StatMods)
  scores : List (String × ℚ)
  maxScore : ℚ
  display : List (String × Card)
  drawQueue : List (Nat × Nat × String)
deriving DecidableEq

/-- The deterministic core of `resolveTurn` (`server/index.js`): PHASE 1
(skills), PHASE 2 (scores), PHASE 3 (heart loss), PHASE 4 (reveal list,
recycling, deferred draw queue), then `clearTemporaryEffects`.  The
`playersWithCards` index list is captured once at the start, as in the
source.  If nobody played a card, the source returns early with no
mutation of players. -/
def resolveTurnCore (nextEventF : EventT → EventT) (room : Room) : ResolveResult :=
  let idxs := playedIdxs room
  if idxs.isEmpty then
    ⟨room, [], [], [], -1, [], []⟩
  else
    let (r1, skillEffects) := phase1 nextEventF room
    let statModifiers := collectStatMods skillEffects
    let (r2, scores) := phase2Go r1.competition r1.event statModifiers idxs r1 []
    let maxScore := maxScoreOf scores
    let r3 := phase3 r2 scores maxScore
    let display := displayList r3
    let (r4, drawQueue) := phase4Go idxs r3 []
    ⟨clearTemporaryEffects r4, skillEffects, statModifiers, scores, maxScore,
     display, drawQueue⟩

/-! ## Turn start (`startNewTurn` in `server/index.js`) -/

/-- The divine-card check at the top of `startNewTurn`: when the map is
non-empty, run `checkDivineCardRevival` over every player in order; a
revived player additionally gets `isDead := false`. -/
def divinePhaseGo (shuffleF : List Card → List Card) :
    List Nat → Room → Room
  | [], room => room
  | i :: rest, room =>
    let (room', revived) := checkDivineCardRevival shuffleF i room
    let room'' :=
      if revived then
        match room'.players[i]? with
        | some q => { room' with players := room'.players.set i { q with isDead := false } }
        | none => room'
      else room'
    divinePhaseGo shuffleF rest room''

/-- The divine-card phase of `startNewTurn`; skipped when the map is empty
(`Object.keys(room.divineCardActive).length > 0`). -/
def divinePhase (shuffleF : List Card → List Card) (room : Room) : Room :=
  if room.divineCardActive.isEmpty then room
  else divinePhaseGo shuffleF (List.range room.players.length) room

/-- The per-player reset in `startNewTurn`: clear `playedCard`, `action`
and `hasDecided`, and decrement a positive skill cooldown. -/
def resetPhase (room : Room) : Room :=
  { room with players := room.players.map (fun p =>
      { p with playedCard := none, action := none, hasDecided := false,
               actionCooldown := p.actionCooldown - 1 }) }

/-- The `heal_1` branch of `startNewTurn`: every player in `room.players`
heals 1 heart, capped at 6. -/
def healPhase (room : Room) : Room :=
  if room.event.effect = "heal_1" then
    { room with players := room.players.map (fun p =>
        { p with heart := min 6 (p.heart + 1) }) }
  else room

/-- Outcome of the `shrimp_curse` branch of `startNewTurn`: the game can end
right there. -/
inductive TurnStartOutcome where
  | normal
  | shrimpWin
  | shrimpDraw
deriving DecidableEq, Repr

/-- The `shrimp_curse` branch of `startNewTurn`: every player loses 1 heart,
then the game ends immediately if at most one player is still alive;
otherwise players killed by the curse are auto-skipped. -/
def shrimpPhase (room : Room) : Room × TurnStartOutcome :=
  if room.event.effect = "shrimp_curse" then
    let room := { room with players := room.players.map (fun p =>
        { p with heart := p.heart - 1 }) }
    let alive : List PlayerSt := room.players.filter (fun p => p.heart > 0 ∧ p.hand ≠ [])
    if alive.length = 1 then (room, .shrimpWin)
    else if alive.length = 0 then (room, .shrimpDraw)
    else
      ({ room with players := room.players.map (fun p =>
          if p.heart = 0 then
            { p with playedCard := none, hasDecided := true,
                     chosenAction := none, hasChosenAction := true }
          else p) }, .normal)
  else (room, .normal)

/-- The closing auto-skip of `startNewTurn`: every eliminated player
(no heart or no cards) is marked as having decided. -/
def autoSkipPhase (room : Room) : Room :=
  { room with players := room.players.map (fun p =>
      if p.heart = 0 ∨ p.hand = [] then
        { p with playedCard := none, hasDecided := true,
                 chosenAction := none, hasChosenAction := true }
      else p) }

/-- `startNewTurn` (`server/index.js`), without the socket emits and timers:
divine-card revival check, per-player reset, then the turn-start event
effects (`heal_1`, `shrimp_curse`) and the auto-skip of eliminated
players. -/
def startNewTurn (shuffleF : List Card → List Card) (room : Room) :
    Room × TurnStartOutcome :=
  let r1 := divinePhase shuffleF room
  let r2 := resetPhase r1
  let r3 := healPhase r2
  let (r4, outcome) := shrimpPhase r3
  match outcome with
  | .normal => (autoSkipPhase r4, .normal)
  | o => (r4, o)

/-! ## After the card decisions (`processAfterPlayDecisions`) -/

/-- Outcome of `processAfterPlayDecisions` (`server/index.js`). -/
inductive AfterPlayOutcome where
  | notAllDecided
  | gameOverFewAlive
  | waitingForPlayers
  | proceedToAction
deriving DecidableEq, Repr

/-- `processAfterPlayDecisions(roomCode)` (`server/index.js`), without the
socket emits: once every player has decided, end the game if at most one
player is alive; wait if some alive player has not played a card; otherwise
apply the sole-contestant skip penalty and advance to the action phase. -/
def processAfterPlayDecisions (room : Room) : Room × AfterPlayOutcome :=
  if ¬ room.players.all (fun p => p.hasDecided) then (room, .notAllDecided)
  else
    let playersWhoSkipped := room.players.filter
      (fun p => p.hasDecided ∧ p.playedCard = none)
    let alivePlayers := room.players.filter (fun p => p.heart > 0 ∧ p.hand ≠ [])
    if alivePlayers.length ≤ 1 then (room, .gameOverFewAlive)
    else
      let playersWhoPlayed := alivePlayers.filter
        (fun p => p.hasDecided ∧ p.playedCard ≠ none)
      if playersWhoPlayed.length ≠ alivePlayers.length then (room, .waitingForPlayers)
      else
        if playersWhoPlayed.length = 1 ∧ playersWhoSkipped.length > 0 then
          ({ room with players := room.players.map (fun p =>
              if (p.hasDecided ∧ p.playedCard = none) ∧ p.heart > 0 ∧ p.hand ≠ [] then
                { p with heart := p.heart - 1 }
              else p) }, .proceedToAction)
        else (room, .proceedToAction)

/-! ## Deck lemmas -/

theorem CardDeck.card_cards (d : CardDeck) : Multiset.card d.cards = d.total := by
  simp [CardDeck.cards, CardDeck.total]

/-- The recycle step at the top of `drawCard`: when the available pile is
empty, the shuffled used pile becomes the new available pile. -/
def recycleIfEmpty (f : List Card → List Card) (d : CardDeck) : CardDeck :=
  if d.availableCards.isEmpty then { availableCards := f d.usedCards, usedCards := [] } else d

/-- The `pop()` step of `drawCard`: take the last available card. -/
def popCard (d : CardDeck) : Option Card × CardDeck :=
  match d.availableCards.getLast? with
  | some c => (some c, { d with availableCards := d.availableCards.dropLast })
  | none => (none, d)

theorem CardDeck.drawCard_eq (f : List Card → List Card) (d : CardDeck) :
    d.drawCard f = popCard (recycleIfEmpty f d) := rfl

theorem cards_recycleIfEmpty (f : List Card → List Card) (hf : ∀ l, (f l).Perm l)
    (d : CardDeck) : (recycleIfEmpty f d).cards = d.cards := by
  unfold recycleIfEmpty
  split
  · rename_i he
    have hav : d.availableCards = [] := List.isEmpty_iff.mp he
    simp only [CardDeck.cards, hav, Multiset.coe_nil, zero_add, add_zero]
    exact Multiset.coe_eq_coe.mpr (hf d.usedCards)
  · rfl

theorem total_recycleIfEmpty (f : List Card → List Card) (hf : ∀ l, (f l).Perm l)
    (d : CardDeck) : (recycleIfEmpty f d).total = d.total := by
  have h := congrArg Multiset.card (cards_recycleIfEmpty f hf d)
  simpa [CardDeck.card_cards] using h

theorem cards_popCard (d : CardDeck) :
    (popCard d).2.cards + (((popCard d).1.toList : List Card) : Multiset Card) = d.cards := by
  unfold popCard
  rcases hl : d.availableCards.getLast? with _ | c
  · simp
  · have hsplit : d.availableCards.dropLast ++ [c] = d.availableCards :=
      List.dropLast_append_getLast? c hl
    simp only [CardDeck.cards, Option.toList_some]
    rw [add_right_comm, Multiset.coe_add, hsplit]

theorem popCard_isSome (d : CardDeck) (h : d.availableCards ≠ []) :
    (popCard d).1.isSome := by
  unfold popCard
  rcases hl : d.availableCards.getLast? with _ | c
  · exact absurd (List.getLast?_eq_none_iff.mp hl) h
  · rfl

theorem CardDeck.cards_drawCard (f : List Card → List Card) (hf : ∀ l, (f l).Perm l)
    (d : CardDeck) :
    (d.drawCard f).2.cards + (((d.drawCard f).1.toList : List Card) : Multiset Card) = d.cards := by
  rw [CardDeck.drawCard_eq]
  rw [cards_popCard]
  exact cards_recycleIfEmpty f hf d

theorem CardDeck.isSome_drawCard (f : List Card → List Card) (hf : ∀ l, (f l).Perm l)
    (d : CardDeck) (h : 1 ≤ d.total) : (d.drawCard f).1.isSome := by
  rw [CardDeck.drawCard_eq]
  apply popCard_isSome
  intro h0
  have ht : (recycleIfEmpty f d).total = d.total := total_recycleIfEmpty f hf d
  have h1 : 1 ≤ (recycleIfEmpty f d).total := ht ▸ h
  unfold recycleIfEmpty at h0 h1
  by_cases he : d.availableCards.isEmpty
  · rw [if_pos he] at h0 h1
    simp only at h0
    rw [CardDeck.total] at h1
    simp [h0] at h1
  · rw [if_neg he] at h0
    exact he (List.isEmpty_iff.mpr h0)

theorem CardDeck.total_drawCard (f : List Card → List Card) (hf : ∀ l, (f l).Perm l)
    (d : CardDeck) :
    (d.drawCard f).2.total + (d.drawCard f).1.toList.length = d.total := by
  have h := congrArg Multiset.card (CardDeck.cards_drawCard f hf d)
  simpa [CardDeck.card_cards] using h

theorem CardDeck.cards_drawCards (f : List Card → List Card) (hf : ∀ l, (f l).Perm l)
    (n : Nat) (d : CardDeck) :
    (d.drawCards f n).2.cards + (((d.drawCards f n).1.filterMap id : List Card) : Multiset Card)
      = d.cards := by
  induction n generalizing d with
  | zero => simp [CardDeck.drawCards]
  | succ n ih =>
    simp only [CardDeck.drawCards]
    have h1 := CardDeck.cards_drawCard f hf d
    rcases hc : (d.drawCard f).1 with _ | c
    · rw [hc] at h1
      simp only [Option.toList_none, Multiset.coe_nil, add_zero] at h1
      simp only [List.filterMap_cons, id]
      rw [ih (d.drawCard f).2, h1]
    · rw [hc] at h1
      simp only [Option.toList_some] at h1
      simp only [List.filterMap_cons, id]
      have h2 := ih (d.drawCard f).2
      have hcl : ∀ (L : List Card), ((c :: L : List Card) : Multiset Card)
          = (([c] : List Card) : Multiset Card) + (L : Multiset Card) := by
        intro L
        rw [show (c :: L) = [c] ++ L from rfl, ← Multiset.coe_add]
      have msAux : ∀ (A B C : Multiset Card), A + (B + C) = (A + C) + B := by
        intro A B C
        abel
      rw [hcl, msAux, h2, h1]

theorem CardDeck.drawCards_all_isSome (f : List Card → List Card) (hf : ∀ l, (f l).Perm l)
    (n : Nat) (d : CardDeck) (h : n ≤ d.total) :
    ((d.drawCards f n).1.filterMap id).length = n ∧
      ∀ c? ∈ (d.drawCards f n).1, c?.isSome := by
  induction n generalizing d with
  | zero => simp [CardDeck.drawCards]
  | succ n ih =>
    have hs : (d.drawCard f).1.isSome := CardDeck.isSome_drawCard f hf d (by omega)
    rcases hc : (d.drawCard f).1 with _ | c
    · rw [hc] at hs
      simp at hs
    · have htot := CardDeck.total_drawCard f hf d
      rw [hc] at htot
      simp only [Option.toList_some, List.length_singleton] at htot
      have hrest : n ≤ (d.drawCard f).2.total := by omega
      obtain ⟨ihl, ihall⟩ := ih (d.drawCard f).2 hrest
      constructor
      · simp only [CardDeck.drawCards, hc, List.filterMap_cons, id]
        simp [ihl]
      · intro c? hmem
        simp only [CardDeck.drawCards, hc, List.mem_cons] at hmem
        rcases hmem with h | h
        · rw [h]
          rfl
        · exact ihall c? h

theorem circulating_applyDeckOp (f : List Card → List Card) (hf : ∀ l, (f l).Perm l)
    (w : DeckWorld) (op : DeckOp) :
    (applyDeckOp f w op).circulating = w.circulating := by
  cases op with
  | draw n =>
    simp only [applyDeckOp, DeckWorld.circulating]
    have h := CardDeck.cards_drawCards f hf n w.deck
    calc (w.deck.drawCards f n).2.cards
        + (w.out + (((w.deck.drawCards f n).1.filterMap id : List Card) : Multiset Card))
        = ((w.deck.drawCards f n).2.cards
            + (((w.deck.drawCards f n).1.filterMap id : List Card) : Multiset Card)) + w.out := by
          abel
      _ = w.deck.cards + w.out := by rw [h]
  | giveBack c =>
    simp only [applyDeckOp]
    by_cases hmem : c ∈ w.out
    · simp only [hmem, if_true, DeckWorld.circulating, CardDeck.returnCard, CardDeck.cards]
      have hadd : ((w.deck.usedCards ++ [c] : List Card) : Multiset Card)
          = (w.deck.usedCards : Multiset Card) + (([c] : List Card) : Multiset Card) :=
        (Multiset.coe_add _ _).symm
      rw [hadd]
      have herase : (([c] : List Card) : Multiset Card) + w.out.erase c = w.out := by
        rw [Multiset.coe_singleton, Multiset.singleton_add, Multiset.cons_erase hmem]
      calc (w.deck.availableCards : Multiset Card)
          + ((w.deck.usedCards : Multiset Card) + (([c] : List Card) : Multiset Card))
          + w.out.erase c
          = (w.deck.availableCards : Multiset Card) + (w.deck.usedCards : Multiset Card)
            + ((([c] : List Card) : Multiset Card) + w.out.erase c) := by abel
        _ = (w.deck.availableCards : Multiset Card) + (w.deck.usedCards : Multiset Card)
            + w.out := by rw [herase]
    · simp [hmem]

/-- **C5** — Draw-pile conservation (`CardDeck`, `server/utils.js`): for every
shuffle behaviour that permutes its input and every sequence of
draw/return operations, the multiset of cards in circulation (available pile
+ used pile + cards handed out) is invariant — so the count always equals the
deck's original instantiated size and recycling introduces no duplicate card
identity.  Moreover a draw of `n` cards succeeds (returns `n` real cards,
none of them `undefined`) whenever the deck still holds at least `n` cards,
and when the available pile is empty at draw time, the shuffled used pile
becomes the new available pile, from which the draw pops the last card. -/
theorem C5_deck_conservation :
    (∀ (f : List Card → List Card), (∀ l, (f l).Perm l) →
      ∀ (w : DeckWorld) (ops : List DeckOp),
        (applyDeckOps f w ops).circulating = w.circulating) ∧
    (∀ (f : List Card → List Card), (∀ l, (f l).Perm l) →
      ∀ (d : CardDeck) (n : Nat), n ≤ d.total →
        ((d.drawCards f n).1.filterMap id).length = n ∧
          ∀ c? ∈ (d.drawCards f n).1, c?.isSome) ∧
    (∀ (f : List Card → List Card) (u rest : List Card) (c : Card), f u = rest ++ [c] →
      CardDeck.drawCard f ⟨[], u⟩ = (some c, ⟨rest, []⟩)) := by
  refine ⟨?_, ?_, ?_⟩
  · intro f hf w ops
    induction ops generalizing w with
    | nil => rfl
    | cons op rest ih =>
      have h1 := circulating_applyDeckOp f hf w op
      calc (applyDeckOps f w (op :: rest)).circulating
          = (applyDeckOps f (applyDeckOp f w op) rest).circulating := rfl
        _ = (applyDeckOp f w op).circulating := ih (applyDeckOp f w op)
        _ = w.circulating := h1
  · intro f hf d n h
    exact CardDeck.drawCards_all_isSome f hf n d h
  · intro f u rest c hfu
    rw [CardDeck.drawCard_eq]
    have h1 : recycleIfEmpty f ⟨[], u⟩ = ⟨f u, []⟩ := by
      simp [recycleIfEmpty]
    rw [h1, hfu]
    simp only [popCard, List.getLast?_concat]
    rw [List.dropLast_concat]

/-- Witness for `C5_deck_conservation` at concrete inputs: the identity
shuffle, a two-card deck with one card outstanding, a draw-return-draw
trace, and a recycle-triggering draw. -/
theorem C5_deck_conservation_witness :
    (applyDeckOps id
      ⟨⟨[⟨1, "a", 1, 1, 1, "normal", "t", "g", "ch", none, none⟩],
        [⟨2, "b", 2, 2, 2, "normal", "t", "g", "ch", none, none⟩]⟩,
        {⟨3, "c", 3, 3, 3, "normal", "t", "g", "ch", none, none⟩}⟩
      [DeckOp.draw 2, DeckOp.giveBack ⟨3, "c", 3, 3, 3, "normal", "t", "g", "ch", none, none⟩,
       DeckOp.draw 1]).circulating
      = (⟨⟨[⟨1, "a", 1, 1, 1, "normal", "t", "g", "ch", none, none⟩],
          [⟨2, "b", 2, 2, 2, "normal", "t", "g", "ch", none, none⟩]⟩,
          {⟨3, "c", 3, 3, 3, "normal", "t", "g", "ch", none, none⟩}⟩ : DeckWorld).circulating ∧
    (((⟨[⟨1, "a", 1, 1, 1, "normal", "t", "g", "ch", none, none⟩],
        [⟨2, "b", 2, 2, 2, "normal", "t", "g", "ch", none, none⟩]⟩ :
        CardDeck).drawCards id 2).1.filterMap id).length = 2 ∧
    CardDeck.drawCard id
        ⟨[], [⟨2, "b", 2, 2, 2, "normal", "t", "g", "ch", none, none⟩]⟩
      = (some ⟨2, "b", 2, 2, 2, "normal", "t", "g", "ch", none, none⟩, ⟨[], []⟩) := by
  refine ⟨?_, ?_, ?_⟩
  · exact C5_deck_conservation.1 id (fun l => List.Perm.refl l) _ _
  · exact (C5_deck_conservation.2.1 id (fun l => List.Perm.refl l) _ 2 (by decide)).1
  · exact C5_deck_conservation.2.2 id
      [⟨2, "b", 2, 2, 2, "normal", "t", "g", "ch", none, none⟩] [] _ rfl

/-! ## Claims about the scoring function -/

/-- Counterexample to **C1** as stated: the `type_buff` event has no
stat-transforming or special-battle effect, yet `calculateScore` does not
return the plain weighted sum — it adds the flat type bonus (score 37.5,
not 32.5). -/
theorem C1_counterexample :
    (getEventModifiers (some ⟨"TypeBuff", "type_buff", some "love", none, none, some 5⟩)
        ⟨1, "CardA", 10, 5, 5, "normal", "love", "VS", "Miku", none, none⟩).statMinus = none ∧
    (getEventModifiers (some ⟨"TypeBuff", "type_buff", some "love", none, none, some 5⟩)
        ⟨1, "CardA", 10, 5, 5, "normal", "love", "VS", "Miku", none, none⟩).maxStatZero = false ∧
    (getEventModifiers (some ⟨"TypeBuff", "type_buff", some "love", none, none, some 5⟩)
        ⟨1, "CardA", 10, 5, 5, "normal", "love", "VS", "Miku", none, none⟩).specialBattle = false ∧
    calculateScore (some ⟨1, "CardA", 10, 5, 5, "normal", "love", "VS", "Miku", none, none⟩)
        "vocal" (some ⟨"TypeBuff", "type_buff", some "love", none, none, some 5⟩)
      ≠ round1 ((10 : ℚ) * 2 + (5 : ℚ) * (3/2) + (5 : ℚ) * 1) := by
  refine ⟨rfl, rfl, rfl, ?_⟩
  simp only [calculateScore, getEventModifiers, truthyInt, jsOrInt, String.reduceEq, reduceIte]
  norm_num [round1, jsRound]

/-- **C1** (amended) — when the active event produces no stat transformation,
no special battle, and no applicable flat score bonus for the card,
`calculateScore` is the plain weighted sum rounded to one decimal place,
with weights vocal→(vocal,dance,visual), dance→(dance,visual,vocal),
visual→(visual,vocal,dance). -/
theorem C1_base_score_formula (card : Card) (event : Option EventT)
    (h1 : truthyInt (getEventModifiers event card).statMinus = none)
    (h2 : (getEventModifiers event card).maxStatZero = false)
    (h3 : (getEventModifiers event card).specialBattle = false)
    (h4 : truthyInt (getEventModifiers event card).typeBonus = none)
    (h5 : truthyInt (getEventModifiers event card).rarityBonus = none)
    (h6 : truthyInt (getEventModifiers event card).groupBonus = none)
    (h7 : truthyInt (getEventModifiers event card).characterBonus = none) :
    calculateScore (some card) "vocal" event
      = round1 ((card.vocal : ℚ) * 2 + (card.dance : ℚ) * (3/2) + (card.visual : ℚ) * 1) ∧
    calculateScore (some card) "dance" event
      = round1 ((card.dance : ℚ) * 2 + (card.visual : ℚ) * (3/2) + (card.vocal : ℚ) * 1) ∧
    calculateScore (some card) "visual" event
      = round1 ((card.visual : ℚ) * 2 + (card.vocal : ℚ) * (3/2) + (card.dance : ℚ) * 1) := by
  refine ⟨?_, ?_, ?_⟩ <;>
  · simp only [calculateScore, h1, h2, h3, h4, h5, h6, h7, String.reduceEq, reduceIte,
      Bool.false_eq_true, if_false]
    norm_num

/-- Witness for `C1_base_score_formula`: a concrete card with no active
event. -/
theorem C1_base_score_formula_witness :
    calculateScore (some ⟨1, "CardW", 10, 5, 5, "normal", "love", "VS", "Miku", none, none⟩)
        "vocal" none
      = round1 (((⟨1, "CardW", 10, 5, 5, "normal", "love", "VS", "Miku", none, none⟩ :
          Card).vocal : ℚ) * 2
        + ((⟨1, "CardW", 10, 5, 5, "normal", "love", "VS", "Miku", none, none⟩ :
          Card).dance : ℚ) * (3/2)
        + ((⟨1, "CardW", 10, 5, 5, "normal", "love", "VS", "Miku", none, none⟩ :
          Card).visual : ℚ) * 1) :=
  (C1_base_score_formula ⟨1, "CardW", 10, 5, 5, "normal", "love", "VS", "Miku", none, none⟩
    none rfl rfl rfl rfl rfl rfl rfl).1

/-- Counterexample to **C6** as stated: under `stat_minus_2`, the card
(1,1,10) in a visual competition does not score 17.5. -/
theorem C6_counterexample :
    calculateScore (some ⟨1, "C6Card", 1, 1, 10, "normal", "love", "VS", "Miku", none, none⟩)
        "visual" (some ⟨"StatMinus", "stat_minus_2", none, none, none, none⟩) ≠ 35/2 := by
  simp only [calculateScore, getEventModifiers, truthyInt, String.reduceEq, reduceIte]
  norm_num [round1, jsRound]

/-- **C6** (amended) — under `stat_minus_2` the card (1,1,10) in a visual
competition has its stats floored to (1,1,8) before the base score is
computed, and the resulting score is 8×2 + 1×1.5 + 1×1 = 18.5 (not 17.5). -/
theorem C6_stat_minus_2_visual :
    calculateScore (some ⟨1, "C6Card", 1, 1, 10, "normal", "love", "VS", "Miku", none, none⟩)
        "visual" (some ⟨"StatMinus", "stat_minus_2", none, none, none, none⟩) = 37/2 ∧
    calculateScore (some ⟨1, "C6Card", 1, 1, 10, "normal", "love", "VS", "Miku", none, none⟩)
        "visual" (some ⟨"StatMinus", "stat_minus_2", none, none, none, none⟩)
      = round1 ((8 : ℚ) * 2 + (1 : ℚ) * (3/2) + (1 : ℚ) * 1) := by
  constructor <;>
  · simp only [calculateScore, getEventModifiers, truthyInt, String.reduceEq, reduceIte]
    norm_num [round1, jsRound]

/-! ## Claims about the turn-start phase -/

/-- A concrete room for the `heal_1` start-of-turn check: Alice is healthy,
Bob is eliminated (heart 0, empty hand, marked dead). -/
def roomC7 : Room :=
  { players :=
      [⟨"P1", "S1", "Alice", 4, [⟨1, "a", 1, 1, 1, "normal", "t", "g", "ch", none, none⟩],
        none, none, 0, false, false, false, false, none, false⟩,
       ⟨"P2", "S2", "Bob", 0, [], none, none, 0, false, true, false, false, none, false⟩],
    protectedPlayers := [], skillBlockActive := [], divineCardActive := [],
    event := ⟨"Heal", "heal_1", none, none, none, none⟩, competition := "vocal",
    deck := ⟨[], []⟩ }

/-- Counterexample to **C7** as stated: under `heal_1` the eliminated player
Bob (heart 0, empty hand, `isDead`) *does* heal — his heart goes from 0 to 1
at the start of the turn, although the claim says only living players heal. -/
theorem C7_counterexample :
    ((roomC7.players[1]?).map PlayerSt.heart = some 0 ∧
      (roomC7.players[1]?).map PlayerSt.isDead = some true) ∧
    (((startNewTurn id roomC7).1.players[1]?).map PlayerSt.heart = some 1) := by
  decide

/-- **C7** (amended) — under `heal_1`, at the very start of the turn *every*
player in the room (living or eliminated alike) has their heart increased by
exactly 1, capped at 6. -/
theorem C7_heal_all_players (room : Room) (h : room.event.effect = "heal_1") :
    (healPhase room).players
      = room.players.map (fun p => { p with heart := min 6 (p.heart + 1) }) := by
  simp [healPhase, h]

/-- Witness for `C7_heal_all_players` at the concrete room `roomC7`. -/
theorem C7_heal_all_players_witness :
    (healPhase roomC7).players
      = roomC7.players.map (fun p => { p with heart := min 6 (p.heart + 1) }) :=
  C7_heal_all_players roomC7 rfl

/-! ## Claim about the sole-contestant skip penalty -/

/-- **C9** — the skip penalty in `processAfterPlayDecisions` is dead code:
the function never changes the room at all.  Reaching the penalty block
requires `playersWhoPlayed.length = alivePlayers.length ≥ 2` (from the two
guards above it) together with `playersWhoPlayed.length = 1`, which is
contradictory, so no skipping player ever loses a heart there. -/
theorem C9_skip_penalty_unreachable (room : Room) :
    (processAfterPlayDecisions room).1 = room := by
  simp only [processAfterPlayDecisions]
  split
  · rfl
  · split
    · rfl
    · split
      · rfl
      · split
        · rename_i hwait hcond
          exfalso
          rename_i hfew _
          omega
        · rfl

/-! ## Claim C2: the tie invariant of PHASE 3 -/

/-- **C2** — tie invariant: whenever every played-card player's final score
equals the turn maximum, the heart-loss phase (PHASE 3 of `resolveTurn`)
changes nothing: every player (hearts included) is exactly as before. -/
theorem C2_tie_no_heart_loss (room : Room) (scores : List (String × ℚ)) (maxScore : ℚ)
    (h : ∀ p ∈ room.players, p.playedCard.isSome →
      jsObjGet scores (getPlayerKey p) = some maxScore) :
    phase3 room scores maxScore = room := by
  have hwin : (room.players.filter (fun p => p.playedCard.isSome)).filter
      (fun p => jsObjGet scores (getPlayerKey p) = some maxScore)
      = room.players.filter (fun p => p.playedCard.isSome) := by
    apply List.filter_eq_self.mpr
    intro p hp
    have hmem := List.mem_filter.mp hp
    exact decide_eq_true (h p hmem.1 (by simpa using hmem.2))
  simp only [phase3]
  rw [hwin]
  simp

/-- A concrete two-player tied room for the `C2` witness. -/
def roomC2w : Room :=
  { players :=
      [⟨"P1", "S1", "Alice", 4, [], some ⟨1, "a", 1, 1, 1, "normal", "t", "g", "ch", none, none⟩,
        some "3", 0, true, false, false, false, none, false⟩,
       ⟨"P2", "S2", "Bob", 4, [], some ⟨2, "b", 2, 2, 2, "normal", "t", "g", "ch", none, none⟩,
        some "3", 0, true, false, false, false, none, false⟩],
    protectedPlayers := [], skillBlockActive := [], divineCardActive := [],
    event := ⟨"None", "none", none, none, none, none⟩, competition := "vocal",
    deck := ⟨[], []⟩ }

/-- Witness for `C2_tie_no_heart_loss`: two players, both played, both at
the maximum score 0. -/
theorem C2_tie_no_heart_loss_witness :
    phase3 roomC2w [("P1", 0), ("P2", 0)] 0 = roomC2w := by
  apply C2_tie_no_heart_loss
  intro p hp _
  rcases List.mem_cons.mp hp with rfl | hp
  · rfl
  · rcases List.mem_cons.mp hp with rfl | hp
    · rfl
    · cases hp

/-! ## Claim C3: divine-card timing -/

theorem checkDivine_not_flagged (f : List Card → List Card) (i : Nat) (room : Room)
    (h : ∀ q, room.players[i]? = some q → q.connId ∉ room.divineCardActive) :
    checkDivineCardRevival f i room = (room, false) := by
  cases hq : room.players[i]? with
  | none => simp [checkDivineCardRevival, hq]
  | some q => simp [checkDivineCardRevival, hq, h q hq]

theorem divinePhaseGo_noop (f : List Card → List Card) (l : List Nat) (room : Room)
    (h : room.divineCardActive = []) : divinePhaseGo f l room = room := by
  induction l with
  | nil => rfl
  | cons j rest ih =>
    have hstep : checkDivineCardRevival f j room = (room, false) :=
      checkDivine_not_flagged f j room (by intro q _; simp [h])
    simp [divinePhaseGo, hstep, ih]

theorem divinePhaseGo_safe (f : List Card → List Card) (l : List Nat) (room : Room)
    (h : ∀ j ∈ l, ∀ q, room.players[j]? = some q → q.connId ∉ room.divineCardActive) :
    divinePhaseGo f l room = room := by
  induction l with
  | nil => rfl
  | cons j rest ih =>
    have hstep : checkDivineCardRevival f j room = (room, false) :=
      checkDivine_not_flagged f j room (h j (List.mem_cons_self j rest))
    simp only [divinePhaseGo, hstep, if_false, Bool.false_eq_true]
    exact ih (fun k hk => h k (List.mem_cons_of_mem j hk))

theorem divinePhaseGo_append (f : List Card → List Card) (l1 l2 : List Nat) (room : Room) :
    divinePhaseGo f (l1 ++ l2) room = divinePhaseGo f l2 (divinePhaseGo f l1 room) := by
  induction l1 generalizing room with
  | nil => rfl
  | cons j rest ih =>
    simp only [List.cons_append, divinePhaseGo]
    exact ih _

theorem range_split (i k : Nat) :
    List.range (i + 1 + k) = (List.range i ++ [i]) ++ (List.range k).map (fun x => i + 1 + x) := by
  rw [List.range_add, List.range_succ]

theorem checkDivine_expired (f : List Card → List Card) (i : Nat) (room : Room) (p : PlayerSt)
    (hp : room.players[i]? = some p) (hflag : room.divineCardActive = [p.connId])
    (hheart : p.heart ≠ 0) :
    checkDivineCardRevival f i room = ({ room with divineCardActive := [] }, false) := by
  simp [checkDivineCardRevival, hp, hflag, hheart]

theorem checkDivine_revive (f : List Card → List Card) (i : Nat) (room : Room) (p : PlayerSt)
    (hp : room.players[i]? = some p) (hflag : room.divineCardActive = [p.connId])
    (hheart : p.heart = 0) :
    checkDivineCardRevival f i room
      = ({ room with divineCardActive := [], players := room.players.set i { p with heart := 1, hand := p.hand ++ ((room.deck.drawCards f 10).1.filterMap id) }, deck := (room.deck.drawCards f 10).2 }, true) := by
  simp [checkDivineCardRevival, hp, hflag, hheart]

/-- **C3** — divine-card timing: (1) the end-of-resolution
`clearTemporaryEffects` resets `protectedPlayers` and `skillBlockActive` but
never touches a pending `divineCardActive` entry; (2) activating the
divine-card skill records the caster's pending flag; (3) at the start of the
following turn the flag is consumed for its holder: if the heart is exactly
0 at that moment the player revives to heart 1, gets `isDead` cleared and
draws 10 cards into the hand; if the heart is nonzero, nothing about any
player changes; in both cases the flag is removed. -/
theorem C3_divine_card_timing :
    (∀ room : Room,
      (clearTemporaryEffects room).divineCardActive = room.divineCardActive ∧
      (clearTemporaryEffects room).protectedPlayers = [] ∧
      (clearTemporaryEffects room).skillBlockActive = [] ∧
      (clearTemporaryEffects room).players = room.players) ∧
    (∀ (nextEventF : EventT → EventT) (i : Nat) (room : Room) (p : PlayerSt),
      room.players[i]? = some p →
      (activateSkill (some "divine card") i room nextEventF).1.divineCardActive
        = room.divineCardActive ++ [p.connId]) ∧
    (∀ (shuffleF : List Card → List Card), (∀ l, (shuffleF l).Perm l) →
      ∀ (room : Room) (i : Nat) (p : PlayerSt),
      room.players[i]? = some p →
      room.divineCardActive = [p.connId] →
      (∀ j q, j ≠ i → room.players[j]? = some q → q.connId ≠ p.connId) →
      (divinePhase shuffleF room).divineCardActive = [] ∧
      (p.heart ≠ 0 → (divinePhase shuffleF room).players = room.players) ∧
      (p.heart = 0 → 10 ≤ room.deck.total →
        ∃ cs : List Card, cs.length = 10 ∧
          (divinePhase shuffleF room).players
            = room.players.set i { p with heart := 1, hand := p.hand ++ cs, isDead := false })) := by
  refine ⟨?_, ?_, ?_⟩
  · intro room
    exact ⟨rfl, rfl, rfl, rfl⟩
  · intro nextEventF i room p hp
    simp [activateSkill, hp]
  · intro shuffleF hf room i p hp hflag hothers
    have hlen : i < room.players.length := by
      by_contra hcon
      push_neg at hcon
      rw [List.getElem?_eq_none hcon] at hp
      cases hp
    obtain ⟨k, hk⟩ : ∃ k, room.players.length = i + 1 + k :=
      ⟨room.players.length - i - 1, by omega⟩
    have hrange : List.range room.players.length
        = (List.range i ++ [i]) ++ (List.range k).map (fun x => i + 1 + x) := by
      rw [hk]
      exact range_split i k
    have hpre : divinePhaseGo shuffleF (List.range i) room = room := by
      apply divinePhaseGo_safe
      intro j hj q hq
      rw [hflag]
      have hji : j ≠ i := by
        have := List.mem_range.mp hj
        omega
      simp [hothers j q hji hq]
    have hphase : divinePhase shuffleF room
        = divinePhaseGo shuffleF ((List.range k).map (fun x => i + 1 + x))
            (divinePhaseGo shuffleF [i] room) := by
      simp only [divinePhase, hflag, List.isEmpty_cons, Bool.false_eq_true, if_false]
      rw [hrange]
      rw [divinePhaseGo_append, divinePhaseGo_append, hpre]
    by_cases hheart : p.heart = 0
    · -- revival path
      have hstep := checkDivine_revive shuffleF i room p hp hflag hheart
      have hmid : divinePhaseGo shuffleF [i] room
          = { room with divineCardActive := [], players := room.players.set i { p with heart := 1, hand := p.hand ++ ((room.deck.drawCards shuffleF 10).1.filterMap id), isDead := false }, deck := (room.deck.drawCards shuffleF 10).2 } := by
        simp only [divinePhaseGo, hstep, if_true]
        rw [List.getElem?_set_self (by simpa using hlen)]
        simp [List.set_set]
      rw [hphase, hmid, divinePhaseGo_noop _ _ _ rfl]
      refine ⟨rfl, by intro h0; exact absurd hheart h0, ?_⟩
      intro _ hdeck
      refine ⟨(room.deck.drawCards shuffleF 10).1.filterMap id, ?_, rfl⟩
      exact (CardDeck.drawCards_all_isSome shuffleF hf 10 room.deck hdeck).1
    · -- expiry path
      have hstep := checkDivine_expired shuffleF i room p hp hflag hheart
      have hmid : divinePhaseGo shuffleF [i] room = { room with divineCardActive := [] } := by
        simp [divinePhaseGo, hstep]
      rw [hphase, hmid, divinePhaseGo_noop _ _ _ rfl]
      exact ⟨rfl, fun _ => rfl, fun h0 => absurd h0 hheart⟩

/-- A dead player holding a pending divine flag, about to revive. -/
def playerC3r : PlayerSt :=
  ⟨"P1", "S1", "Alice", 0, [], none, none, 0, true, true, false, false, none, true⟩

/-- A one-player room whose divine flag is pending and whose deck holds 10
cards. -/
def roomC3r : Room :=
  { players := [playerC3r],
    protectedPlayers := ["S1"], skillBlockActive := [], divineCardActive := ["S1"],
    event := ⟨"None", "none", none, none, none, none⟩, competition := "vocal",
    deck := ⟨(List.range 10).map (fun n => ⟨n, "c", 1, 1, 1, "normal", "t", "g", "ch", none, none⟩), []⟩ }

/-- Witness for `C3_divine_card_timing`: the clearing step keeps the
pending flag of `roomC3r`, the grant step records it, and the start-of-turn
check revives the dead flag holder with 10 drawn cards. -/
theorem C3_divine_card_timing_witness :
    ((clearTemporaryEffects roomC3r).divineCardActive = roomC3r.divineCardActive ∧
      (clearTemporaryEffects roomC3r).protectedPlayers = [] ∧
      (clearTemporaryEffects roomC3r).skillBlockActive = [] ∧
      (clearTemporaryEffects roomC3r).players = roomC3r.players) ∧
    ((activateSkill (some "divine card") 0 roomC3r id).1.divineCardActive
      = roomC3r.divineCardActive ++ [playerC3r.connId]) ∧
    (∃ cs : List Card, cs.length = 10 ∧
      (divinePhase id roomC3r).players
        = roomC3r.players.set 0 { playerC3r with heart := 1, hand := playerC3r.hand ++ cs, isDead := false }) := by
  refine ⟨C3_divine_card_timing.1 roomC3r,
    C3_divine_card_timing.2.1 id 0 roomC3r playerC3r rfl, ?_⟩
  have h := C3_divine_card_timing.2.2 id (fun l => List.Perm.refl l) roomC3r 0 playerC3r
    rfl rfl ?_
  · exact h.2.2 rfl (by decide)
  · intro j q hj hq
    match j, hj with
    | j + 1, _ => simp [roomC3r] at hq

/-! ## Claim C8: hidden skill -/

/-- A concrete room refuting order-independence of the hidden-skill block:
Alice (salt, Skill action) is processed before Bob (hidden skill, Skill
action). -/
def roomC8 : Room :=
  { players :=
      [⟨"P1", "S1", "Alice", 6, [], some ⟨1, "SaltCard", 1, 1, 1, "normal", "t", "g", "ch", none, some "salt"⟩,
        some "2", 0, true, false, false, false, none, false⟩,
       ⟨"P2", "S2", "Bob", 6, [], some ⟨2, "HiddenCard", 2, 2, 2, "normal", "t", "g", "ch", none, some "hidden skill"⟩,
        some "2", 0, true, false, false, false, none, false⟩],
    protectedPlayers := [], skillBlockActive := [], divineCardActive := [],
    event := ⟨"None", "none", none, none, none, none⟩, competition := "vocal",
    deck := ⟨[], []⟩ }

/-- Counterexample to **C8** as stated: Bob plays the hidden skill with a
Skill action, yet Alice — another Skill-action player of the same turn,
processed *earlier* — is not nullified: her salt skill activates and her
effect entry is not blocked.  The nullification is therefore not independent
of the order in which skills are activated. -/
theorem C8_counterexample :
    (phase1 id roomC8).2
      = [⟨"Alice", some "salt", false, ["No effect"], []⟩,
         ⟨"Bob", some "hidden skill", false, ["Other players skills blocked this turn"], []⟩] := by
  decide

theorem phase1Go_all_blocked (f : EventT → EventT) (l : List Nat) (room : Room)
    (acc : List SkillEffect) (c : String)
    (hblock : room.skillBlockActive = [c])
    (hsafe : ∀ j ∈ l, ∀ q, room.players[j]? = some q → c ≠ getPlayerKey q) :
    ∃ tail : List SkillEffect,
      (phase1Go f l room acc).2 = acc ++ tail ∧ ∀ e ∈ tail, e.blocked = true := by
  induction l generalizing acc with
  | nil => exact ⟨[], by simp [phase1Go], by simp⟩
  | cons j rest ih =>
    cases hq : room.players[j]? with
    | none =>
      obtain ⟨tail, h1, h2⟩ := ih acc (fun k hk => hsafe k (List.mem_cons_of_mem j hk))
      exact ⟨tail, by simpa [phase1Go, hq] using h1, h2⟩
    | some q =>
      by_cases hact : q.action = some "2" ∧ q.playedCard.isSome
      · have hblocked : isSkillBlocked room.skillBlockActive (getPlayerKey q) = true := by
          simp only [isSkillBlocked, hblock, List.any_cons, List.any_nil, Bool.or_false]
          simp [hsafe j (List.mem_cons_self j rest) q hq]
        obtain ⟨tail, h1, h2⟩ :=
          ih (acc ++ [⟨q.name, q.playedCard.bind Card.skill, true,
            ["Skill blocked by Hidden Skill"], []⟩])
            (fun k hk => hsafe k (List.mem_cons_of_mem j hk))
        refine ⟨⟨q.name, q.playedCard.bind Card.skill, true,
          ["Skill blocked by Hidden Skill"], []⟩ :: tail, ?_, ?_⟩
        · simp only [phase1Go, hq]
          rw [if_pos hact, if_pos hblocked, h1]
          simp
        · intro e he
          rcases List.mem_cons.mp he with rfl | he
          · rfl
          · exact h2 e he
      · obtain ⟨tail, h1, h2⟩ := ih acc (fun k hk => hsafe k (List.mem_cons_of_mem j hk))
        exact ⟨tail, by simpa [phase1Go, hq, hact] using h1, h2⟩

/-- **C8** (amended) — hidden-skill blocking follows activation order: when
the *first* played-card player in resolution order uses the Skill action
with a hidden-skill card (and no block is active yet), then the blocker's
own skill activates un-blocked and *every* later Skill-action player of the
turn is nullified and reported blocked (their stored keys always differ
from the blocker's stored connection id).  Skill-action players processed
before the hidden-skill activation are not nullified, so the claim's
"regardless of order" does not hold (see the counterexample). -/
theorem C8_hidden_skill_blocks_later (f : EventT → EventT) (room : Room)
    (i : Nat) (rest : List Nat) (b : PlayerSt)
    (hidx : playedIdxs room = i :: rest)
    (hb : room.players[i]? = some b)
    (hact : b.action = some "2")
    (hskill : b.playedCard.bind Card.skill = some "hidden skill")
    (hsome : b.playedCard.isSome)
    (hblock0 : room.skillBlockActive = [])
    (hothers : ∀ j q, j ≠ i → room.players[j]? = some q → b.connId ≠ getPlayerKey q) :
    ∃ tail : List SkillEffect,
      (phase1 f room).2
        = ⟨b.name, some "hidden skill", false,
            ["Other players skills blocked this turn"], []⟩ :: tail
        ∧ ∀ e ∈ tail, e.blocked = true := by
  have hnodup : (playedIdxs room).Nodup :=
    List.Nodup.filter _ (List.nodup_range _)
  have hrest_ne : ∀ j ∈ rest, j ≠ i := by
    intro j hj hji
    subst hji
    rw [hidx] at hnodup
    exact (List.nodup_cons.mp hnodup).1 hj
  have hnotblocked : ¬ (isSkillBlocked room.skillBlockActive (getPlayerKey b) = true) := by
    simp [isSkillBlocked, hblock0]
  have hstep : phase1 f room
      = phase1Go f rest { room with skillBlockActive := room.skillBlockActive ++ [b.connId] }
          [⟨b.name, some "hidden skill", false,
            ["Other players skills blocked this turn"], []⟩] := by
    simp only [phase1, hidx, phase1Go, hb]
    rw [if_pos ⟨hact, hsome⟩, if_neg hnotblocked]
    simp only [hskill, activateSkill, hb, Option.some.injEq, String.reduceEq, reduceIte,
      if_false, List.nil_append]
  have hsafe : ∀ j ∈ rest, ∀ q,
      ({ room with skillBlockActive := room.skillBlockActive ++ [b.connId] } :
        Room).players[j]? = some q →
      b.connId ≠ getPlayerKey q := by
    intro j hj q hq
    exact hothers j q (hrest_ne j hj) (by simpa using hq)
  obtain ⟨tail, h1, h2⟩ := phase1Go_all_blocked f rest
    { room with skillBlockActive := room.skillBlockActive ++ [b.connId] }
    [⟨b.name, some "hidden skill", false, ["Other players skills blocked this turn"], []⟩]
    b.connId (by simp [hblock0]) hsafe
  refine ⟨tail, ?_, h2⟩
  rw [hstep, h1]
  simp

/-- Witness for `C8_hidden_skill_blocks_later`: Bob (hidden skill) is first
in resolution order, Alice (salt, Skill action) second — Alice is blocked. -/
def roomC8w : Room :=
  { players :=
      [⟨"P2", "S2", "Bob", 6, [], some ⟨2, "HiddenCard", 2, 2, 2, "normal", "t", "g", "ch", none, some "hidden skill"⟩,
        some "2", 0, true, false, false, false, none, false⟩,
       ⟨"P1", "S1", "Alice", 6, [], some ⟨1, "SaltCard", 1, 1, 1, "normal", "t", "g", "ch", none, some "salt"⟩,
        some "2", 0, true, false, false, false, none, false⟩],
    protectedPlayers := [], skillBlockActive := [], divineCardActive := [],
    event := ⟨"None", "none", none, none, none, none⟩, competition := "vocal",
    deck := ⟨[], []⟩ }

theorem C8_hidden_skill_blocks_later_witness :
    ∃ tail : List SkillEffect,
      (phase1 id roomC8w).2
        = ⟨"Bob", some "hidden skill", false,
            ["Other players skills blocked this turn"], []⟩ :: tail
        ∧ ∀ e ∈ tail, e.blocked = true := by
  have h := C8_hidden_skill_blocks_later id roomC8w 0 [1]
    ⟨"P2", "S2", "Bob", 6, [],
      some ⟨2, "HiddenCard", 2, 2, 2, "normal", "t", "g", "ch", none, some "hidden skill"⟩,
      some "2", 0, true, false, false, false, none, false⟩
    (by decide) rfl rfl rfl rfl rfl ?_
  · exact h
  · intro j q hj hq
    match j, hj with
    | 1, _ =>
      have : q = ⟨"P1", "S1", "Alice", 6, [],
        some ⟨1, "SaltCard", 1, 1, 1, "normal", "t", "g", "ch", none, some "salt"⟩,
        some "2", 0, true, false, false, false, none, false⟩ := by
        simpa [roomC8w] using hq.symm
      rw [this]
      decide
    | j + 2, _ => simp [roomC8w] at hq

/-! ## Support lemmas for the Flee claim (C4) -/

/-- The player fields that PHASE 1 – PHASE 3 never change: identity, name,
played card and chosen action. -/
def stableView (p : PlayerSt) : String × String × String × Option Card × Option String :=
  (p.playerId, p.connId, p.name, p.playedCard, p.action)

theorem set_stable (l : List PlayerSt) (j : Nat) (q q' : PlayerSt)
    (hq : l[j]? = some q) (h : stableView q' = stableView q) (i : Nat) :
    ((l.set j q')[i]?).map stableView = (l[i]?).map stableView := by
  by_cases hij : i = j
  · subst hij
    have hlt : i < l.length := by
      by_contra hcon
      push_neg at hcon
      rw [List.getElem?_eq_none hcon] at hq
      cases hq
    rw [List.getElem?_set_self hlt, hq]
    simp [h]
  · rw [List.getElem?_set_ne (fun hji => hij hji.symm)]

theorem activateSkill_players (skill : Option String) (j : Nat) (room : Room)
    (f : EventT → EventT) :
    (activateSkill skill j room f).1.players = room.players ∨
    ∃ q q', room.players[j]? = some q ∧ stableView q' = stableView q ∧ q'.action = q.action ∧
      (activateSkill skill j room f).1.players = room.players.set j q' := by
  cases hq : room.players[j]? with
  | none => left; simp [activateSkill, hq]
  | some q =>
    by_cases hs : skill = some "never give up"
    · subst hs
      right
      refine ⟨q, { q with heart := min 6 (q.heart + 2) }, rfl, rfl, rfl, ?_⟩
      simp [activateSkill, hq]
    · left
      by_cases c1 : skill = some "salt"
      · simp [activateSkill, hq, c1]
      by_cases c2 : skill = some "leek shield"
      · simp [activateSkill, hq, c2]
      by_cases c3 : skill = some "golden microphone"
      · simp [activateSkill, hq, c3]
      by_cases c4 : skill = some "feet of fire"
      · simp [activateSkill, hq, c4]
      by_cases c5 : skill = some "makeup shop visit"
      · simp [activateSkill, hq, c5]
      by_cases c6 : skill = some "mic power cut"
      · simp [activateSkill, hq, c6]
      by_cases c7 : skill = some "freeze spell"
      · simp [activateSkill, hq, c7]
      by_cases c8 : skill = some "banana slip"
      · simp [activateSkill, hq, c8]
      by_cases c9 : skill = some "fate control"
      · simp only [activateSkill, hq, c9, String.reduceEq, reduceIte, Option.some.injEq]
        split <;> rfl
      by_cases c10 : skill = some "hidden skill"
      · simp [activateSkill, hq, c10]
      by_cases c11 : skill = some "gacha god"
      · simp [activateSkill, hq, c11]
      by_cases c12 : skill = some "divine card"
      · simp [activateSkill, hq, c12]
      simp [activateSkill, hq, hs, c1, c2, c3, c4, c5, c6, c7, c8, c9, c10, c11, c12]

theorem activateSkill_deck (skill : Option String) (j : Nat) (room : Room)
    (f : EventT → EventT) :
    (activateSkill skill j room f).1.deck = room.deck := by
  cases hq : room.players[j]? with
  | none => simp [activateSkill, hq]
  | some q =>
    by_cases d1 : skill = some "salt"
    · simp [activateSkill, hq, d1]
    by_cases d2 : skill = some "leek shield"
    · simp [activateSkill, hq, d2]
    by_cases d3 : skill = some "never give up"
    · simp [activateSkill, hq, d3]
    by_cases d4 : skill = some "golden microphone"
    · simp [activateSkill, hq, d4]
    by_cases d5 : skill = some "feet of fire"
    · simp [activateSkill, hq, d5]
    by_cases d6 : skill = some "makeup shop visit"
    · simp [activateSkill, hq, d6]
    by_cases d7 : skill = some "mic power cut"
    · simp [activateSkill, hq, d7]
    by_cases d8 : skill = some "freeze spell"
    · simp [activateSkill, hq, d8]
    by_cases d9 : skill = some "banana slip"
    · simp [activateSkill, hq, d9]
    by_cases d10 : skill = some "fate control"
    · simp only [activateSkill, hq, d10, String.reduceEq, reduceIte, Option.some.injEq]
      split <;> rfl
    by_cases d11 : skill = some "hidden skill"
    · simp [activateSkill, hq, d11]
    by_cases d12 : skill = some "gacha god"
    · simp [activateSkill, hq, d12]
    by_cases d13 : skill = some "divine card"
    · simp [activateSkill, hq, d13]
    simp [activateSkill, hq, d1, d2, d3, d4, d5, d6, d7, d8, d9, d10, d11, d12, d13]

/-- The room after one full skill-activation step of PHASE 1 (activation
plus the possible `needsGachaGod` flagging) keeps every player's stable
fields. -/
theorem phase1Step_stable (skill : Option String) (j : Nat) (room : Room)
    (f : EventT → EventT) (i : Nat) :
    let room' := (activateSkill skill j room f).1
    let room'' :=
      if skill = some "gacha god" then
        match room'.players[j]? with
        | some q => { room' with players := room'.players.set j { q with needsGachaGod := true } }
        | none => room'
      else room'
    ((room''.players[i]?).map stableView) = ((room.players[i]?).map stableView) := by
  intro room' room''
  have hbase : ((room'.players[i]?).map stableView) = ((room.players[i]?).map stableView) := by
    rcases activateSkill_players skill j room f with ha | ⟨q, q', hq, hst, _, ha⟩
    · show (((activateSkill skill j room f).1.players[i]?).map stableView) = _
      rw [ha]
    · show (((activateSkill skill j room f).1.players[i]?).map stableView) = _
      rw [ha]
      exact set_stable room.players j q q' hq hst i
  by_cases hg : skill = some "gacha god"
  · show ((if skill = some "gacha god" then _ else _ : Room).players[i]?).map stableView = _
    rw [if_pos hg]
    cases hq2 : room'.players[j]? with
    | none => exact hbase
    | some q2 =>
      have hstep : (((room'.players.set j { q2 with needsGachaGod := true })[i]?).map stableView)
          = ((room'.players[i]?).map stableView) :=
        set_stable room'.players j q2 { q2 with needsGachaGod := true } hq2 rfl i
      simp only [hq2]
      rw [hstep]
      exact hbase
  · show ((if skill = some "gacha god" then _ else _ : Room).players[i]?).map stableView = _
    rw [if_neg hg]
    exact hbase

theorem phase1Go_stable (f : EventT → EventT) (l : List Nat) (room : Room)
    (acc : List SkillEffect) (i : Nat) :
    (((phase1Go f l room acc).1.players[i]?).map stableView)
      = ((room.players[i]?).map stableView) := by
  induction l generalizing room acc with
  | nil => rfl
  | cons j rest ih =>
    cases hq : room.players[j]? with
    | none => simp only [phase1Go, hq]; exact ih room acc
    | some q =>
      by_cases hact : q.action = some "2" ∧ q.playedCard.isSome
      · by_cases hbl : isSkillBlocked room.skillBlockActive (getPlayerKey q) = true
        · simp only [phase1Go, hq]
          rw [if_pos hact, if_pos hbl]
          exact ih room _
        · simp only [phase1Go, hq]
          rw [if_pos hact, if_neg hbl]
          rw [ih]
          exact phase1Step_stable (q.playedCard.bind Card.skill) j room f i
      · simp only [phase1Go, hq]
        rw [if_neg hact]
        exact ih room acc

/-! ## C4 support: exact preservation and bookkeeping lemmas for the four
resolution phases, tracked at a fixed player index. -/

theorem getElem?_lt_length {α : Type} (l : List α) {j : Nat} {a : α}
    (h : l[j]? = some a) : j < l.length := by
  by_contra hcon
  push_neg at hcon
  rw [List.getElem?_eq_none hcon] at h
  cases h

theorem stableView_fields {a b : PlayerSt} (h : stableView a = stableView b) :
    a.playerId = b.playerId ∧ a.connId = b.connId ∧ a.name = b.name ∧
    a.playedCard = b.playedCard ∧ a.action = b.action := by
  simp only [stableView, Prod.mk.injEq] at h
  exact ⟨h.1, h.2.1, h.2.2.1, h.2.2.2.1, h.2.2.2.2⟩

theorem getPlayerKey_of_stable {a b : PlayerSt} (h : stableView a = stableView b) :
    getPlayerKey a = getPlayerKey b := by
  obtain ⟨h1, h2, -, -, -⟩ := stableView_fields h
  simp [getPlayerKey, h1, h2]

theorem phase1Step_preserve (skill : Option String) (j : Nat) (room : Room)
    (f : EventT → EventT) (i : Nat) (hij : j ≠ i) (p : PlayerSt)
    (hp : room.players[i]? = some p) :
    let room' := (activateSkill skill j room f).1
    let room'' :=
      if skill = some "gacha god" then
        match room'.players[j]? with
        | some q => { room' with players := room'.players.set j { q with needsGachaGod := true } }
        | none => room'
      else room'
    room''.players[i]? = some p := by
  intro room' room''
  have hbase : room'.players[i]? = some p := by
    rcases activateSkill_players skill j room f with ha | ⟨a, a', _, _, _, ha⟩
    · show (activateSkill skill j room f).1.players[i]? = some p
      rw [ha]; exact hp
    · show (activateSkill skill j room f).1.players[i]? = some p
      rw [ha, List.getElem?_set_ne hij]; exact hp
  by_cases hg : skill = some "gacha god"
  · show (if skill = some "gacha god" then _ else _ : Room).players[i]? = some p
    rw [if_pos hg]
    cases hq2 : room'.players[j]? with
    | none => exact hbase
    | some q2 =>
      simp only [hq2]
      rw [List.getElem?_set_ne hij]
      exact hbase
  · show (if skill = some "gacha god" then _ else _ : Room).players[i]? = some p
    rw [if_neg hg]
    exact hbase

theorem phase1Step_deck (skill : Option String) (j : Nat) (room : Room)
    (f : EventT → EventT) :
    let room' := (activateSkill skill j room f).1
    let room'' :=
      if skill = some "gacha god" then
        match room'.players[j]? with
        | some q => { room' with players := room'.players.set j { q with needsGachaGod := true } }
        | none => room'
      else room'
    room''.deck = room.deck := by
  intro room' room''
  have hbase : room'.deck = room.deck := activateSkill_deck skill j room f
  by_cases hg : skill = some "gacha god"
  · show (if skill = some "gacha god" then _ else _ : Room).deck = room.deck
    rw [if_pos hg]
    cases hq2 : room'.players[j]? with
    | none => exact hbase
    | some q2 => simp only [hq2]; exact hbase
  · show (if skill = some "gacha god" then _ else _ : Room).deck = room.deck
    rw [if_neg hg]
    exact hbase

/-- PHASE 1 never touches a player whose action is not Skill (`"2"`): the
only player mutations are `activateSkill`'s write to the acting index and
the gacha-god flag, both at an index whose action is `"2"`. -/
theorem phase1Go_preserve (f : EventT → EventT) (l : List Nat) (i : Nat) (p : PlayerSt)
    (hact : p.action ≠ some "2") :
    ∀ room acc, room.players[i]? = some p →
      (phase1Go f l room acc).1.players[i]? = some p := by
  induction l with
  | nil => intro room acc hp; exact hp
  | cons j rest ih =>
    intro room acc hp
    cases hq : room.players[j]? with
    | none => simp only [phase1Go, hq]; exact ih room acc hp
    | some q =>
      by_cases hcond : q.action = some "2" ∧ q.playedCard.isSome
      · have hij : j ≠ i := by
          intro hji
          subst hji
          rw [hp] at hq
          injection hq with hq'
          subst hq'
          exact hact hcond.1
        by_cases hbl : isSkillBlocked room.skillBlockActive (getPlayerKey q) = true
        · simp only [phase1Go, hq]
          rw [if_pos hcond, if_pos hbl]
          exact ih room _ hp
        · simp only [phase1Go, hq]
          rw [if_pos hcond, if_neg hbl]
          exact ih _ _ (phase1Step_preserve (q.playedCard.bind Card.skill) j room f i hij p hp)
      · simp only [phase1Go, hq]
        rw [if_neg hcond]
        exact ih room acc hp

theorem phase1Go_deck (f : EventT → EventT) (l : List Nat) :
    ∀ room acc, (phase1Go f l room acc).1.deck = room.deck := by
  induction l with
  | nil => intro room acc; rfl
  | cons j rest ih =>
    intro room acc
    cases hq : room.players[j]? with
    | none => simp only [phase1Go, hq]; exact ih room acc
    | some q =>
      by_cases hcond : q.action = some "2" ∧ q.playedCard.isSome
      · by_cases hbl : isSkillBlocked room.skillBlockActive (getPlayerKey q) = true
        · simp only [phase1Go, hq]
          rw [if_pos hcond, if_pos hbl]
          exact ih room _
        · simp only [phase1Go, hq]
          rw [if_pos hcond, if_neg hbl]
          rw [ih]
          exact phase1Step_deck (q.playedCard.bind Card.skill) j room f
      · simp only [phase1Go, hq]
        rw [if_neg hcond]
        exact ih room acc

theorem scoreAndApply_stable (competition : String) (event : EventT)
    (sm : List (String × StatMods)) (p : PlayerSt) :
    stableView (scoreAndApply competition event sm p).1 = stableView p := by
  cases hpc : p.playedCard with
  | none => simp only [scoreAndApply, hpc]
  | some card =>
    simp only [scoreAndApply, hpc]
    split_ifs <;> simp [stableView, hpc]

theorem phase2Go_stable (competition : String) (event : EventT)
    (sm : List (String × StatMods)) (l : List Nat) (i : Nat) :
    ∀ room scores,
      (((phase2Go competition event sm l room scores).1.players[i]?).map stableView)
        = ((room.players[i]?).map stableView) := by
  induction l with
  | nil => intro room scores; rfl
  | cons j rest ih =>
    intro room scores
    cases hq : room.players[j]? with
    | none => simp only [phase2Go, hq]; exact ih room scores
    | some q =>
      simp only [phase2Go, hq]
      rw [ih]
      exact set_stable room.players j q _ hq (scoreAndApply_stable competition event sm q) i

theorem phase2Go_preserve (competition : String) (event : EventT)
    (sm : List (String × StatMods)) (l : List Nat) (i : Nat) :
    ∀ room scores, i ∉ l →
      (phase2Go competition event sm l room scores).1.players[i]? = room.players[i]? := by
  induction l with
  | nil => intro room scores _; rfl
  | cons j rest ih =>
    intro room scores hi
    have hij : j ≠ i := fun h => hi (h ▸ List.mem_cons_self j rest)
    have hrest : i ∉ rest := fun h => hi (List.mem_cons_of_mem j h)
    cases hq : room.players[j]? with
    | none => simp only [phase2Go, hq]; exact ih room scores hrest
    | some q =>
      simp only [phase2Go, hq]
      rw [ih _ _ hrest]
      exact List.getElem?_set_ne hij

theorem phase2Go_deck (competition : String) (event : EventT)
    (sm : List (String × StatMods)) (l : List Nat) :
    ∀ room scores, (phase2Go competition event sm l room scores).1.deck = room.deck := by
  induction l with
  | nil => intro room scores; rfl
  | cons j rest ih =>
    intro room scores
    cases hq : room.players[j]? with
    | none => simp only [phase2Go, hq]; exact ih room scores
    | some q =>
      simp only [phase2Go, hq]
      rw [ih]

theorem phase2Go_append (competition : String) (event : EventT)
    (sm : List (String × StatMods)) (l1 l2 : List Nat) :
    ∀ room scores,
      phase2Go competition event sm (l1 ++ l2) room scores
        = phase2Go competition event sm l2
            (phase2Go competition event sm l1 room scores).1
            (phase2Go competition event sm l1 room scores).2 := by
  induction l1 with
  | nil => intro room scores; rfl
  | cons j rest ih =>
    intro room scores
    cases hq : room.players[j]? with
    | none => simp only [List.cons_append, phase2Go, hq]; exact ih room scores
    | some q => simp only [List.cons_append, phase2Go, hq]; exact ih _ _

/-- The score entries appended by PHASE 2 are keyed by `getPlayerKey` of a
player present (at the corresponding index) in the room the phase started
from. -/
theorem phase2Go_scores_spec (competition : String) (event : EventT)
    (sm : List (String × StatMods)) (l : List Nat) :
    ∀ room scores, ∃ tail,
      (phase2Go competition event sm l room scores).2 = scores ++ tail ∧
      ∀ ent ∈ tail, ∃ j ∈ l, ∃ q, room.players[j]? = some q ∧ ent.1 = getPlayerKey q := by
  induction l with
  | nil =>
    intro room scores
    exact ⟨[], (List.append_nil scores).symm, by intro ent h; cases h⟩
  | cons j rest ih =>
    intro room scores
    cases hq : room.players[j]? with
    | none =>
      obtain ⟨tail, h1, h2⟩ := ih room scores
      refine ⟨tail, ?_, ?_⟩
      · simp only [phase2Go, hq]; exact h1
      · intro ent hent
        obtain ⟨j', hj', q', hq', hk⟩ := h2 ent hent
        exact ⟨j', List.mem_cons_of_mem j hj', q', hq', hk⟩
    | some q =>
      obtain ⟨tail, h1, h2⟩ :=
        ih { room with players := room.players.set j (scoreAndApply competition event sm q).1 }
          (scores ++ [(getPlayerKey q, (scoreAndApply competition event sm q).2)])
      refine ⟨(getPlayerKey q, (scoreAndApply competition event sm q).2) :: tail, ?_, ?_⟩
      · simp only [phase2Go, hq]
        rw [h1, List.append_assoc]
        rfl
      · intro ent hent
        rcases List.mem_cons.mp hent with hent | hent
        · exact ⟨j, List.mem_cons_self j rest, q, hq, by rw [hent]⟩
        · obtain ⟨j', hj', q', hq', hk⟩ := h2 ent hent
          by_cases hjj : j' = j
          · subst hjj
            have hlt : j' < room.players.length := getElem?_lt_length room.players hq
            simp only [List.getElem?_set_self hlt] at hq'
            injection hq' with hq''
            refine ⟨j', List.mem_cons_self j' rest, q, hq, ?_⟩
            rw [hk, ← hq'']
            exact getPlayerKey_of_stable (scoreAndApply_stable competition event sm q)
          · simp only [List.getElem?_set_ne (fun h => hjj h.symm)] at hq'
            exact ⟨j', List.mem_cons_of_mem j hj', q', hq', hk⟩

theorem jsObjGet_foldl_keys_ne {α : Type} (l : List (String × α)) (k : String)
    (h : ∀ e ∈ l, e.1 ≠ k) :
    ∀ init : Option α,
      l.foldl (fun acc kv => if kv.1 = k then some kv.2 else acc) init = init := by
  induction l with
  | nil => intro init; rfl
  | cons x xs ih =>
    intro init
    have hx : x.1 ≠ k := h x (List.mem_cons_self x xs)
    simp only [List.foldl_cons, if_neg hx]
    exact ih (fun e he => h e (List.mem_cons_of_mem x he)) init

theorem jsObjGet_append_right {α : Type} (l1 l2 : List (String × α)) (k : String)
    (h : ∀ e ∈ l2, e.1 ≠ k) : jsObjGet (l1 ++ l2) k = jsObjGet l1 k := by
  simp only [jsObjGet, List.foldl_append]
  exact jsObjGet_foldl_keys_ne l2 k h _

theorem jsObjGet_snoc_self {α : Type} (l : List (String × α)) (k : String) (v : α) :
    jsObjGet (l ++ [(k, v)]) k = some v := by
  simp [jsObjGet, List.foldl_append]

theorem mem_playedIdxs {room : Room} {i : Nat} {p : PlayerSt}
    (hp : room.players[i]? = some p) (hc : p.playedCard.isSome) :
    i ∈ playedIdxs room := by
  simp only [playedIdxs, List.mem_filter, List.mem_range]
  refine ⟨getElem?_lt_length room.players hp, ?_⟩
  rw [hp]
  simpa using hc

theorem playedIdxs_nodup (room : Room) : (playedIdxs room).Nodup :=
  List.Nodup.filter _ (List.nodup_range _)

theorem Option_map_congr_of {α β : Type} (f : α → α) (g : α → β) (o : Option α)
    (h : ∀ x, g (f x) = g x) : (o.map f).map g = o.map g := by
  cases o <;> simp [h]

theorem phase3_deck (room : Room) (scores : List (String × ℚ)) (m : ℚ) :
    (phase3 room scores m).deck = room.deck := by
  simp only [phase3]
  split <;> rfl

theorem phase3_stable (room : Room) (scores : List (String × ℚ)) (m : ℚ) (j : Nat) :
    (((phase3 room scores m).players[j]?).map stableView)
      = ((room.players[j]?).map stableView) := by
  simp only [phase3]
  split
  · rfl
  · simp only [List.getElem?_map]
    apply Option_map_congr_of
    intro x
    repeat first | rfl | split

theorem stable_chain_some {room1 room2 : Room} {j : Nat} {q : PlayerSt}
    (h : ((room1.players[j]?).map stableView) = ((room2.players[j]?).map stableView))
    (hq : room1.players[j]? = some q) :
    ∃ q0, room2.players[j]? = some q0 ∧ stableView q = stableView q0 := by
  rw [hq] at h
  cases hq0 : room2.players[j]? with
  | none => rw [hq0] at h; cases h
  | some q0 =>
    rw [hq0] at h
    simp only [Option.map_some'] at h
    injection h with h
    exact ⟨q0, rfl, h⟩

theorem displayList_mem (room : Room) (e : String × Card) (he : e ∈ displayList room) :
    ∃ j : Nat, ∃ q : PlayerSt, room.players[j]? = some q ∧ q.playedCard = some e.2 ∧
      q.action ≠ some "4" := by
  simp only [displayList, List.mem_filterMap, List.mem_filter, decide_eq_true_eq] at he
  obtain ⟨q, ⟨hmem, hcond⟩, hmap⟩ := he
  obtain ⟨j, hj⟩ := List.mem_iff_getElem?.mp hmem
  cases hpc : q.playedCard with
  | none => rw [hpc] at hmap; cases hmap
  | some c0 =>
    rw [hpc] at hmap
    simp only [Option.map_some'] at hmap
    injection hmap with hmap
    refine ⟨j, q, hj, ?_, hcond.2⟩
    rw [← hmap]
    exact hpc

theorem phase4Go_append (l1 l2 : List Nat) :
    ∀ room queue,
      phase4Go (l1 ++ l2) room queue
        = phase4Go l2 (phase4Go l1 room queue).1 (phase4Go l1 room queue).2 := by
  induction l1 with
  | nil => intro room queue; rfl
  | cons j rest ih =>
    intro room queue
    cases hq : room.players[j]? with
    | none => simp only [List.cons_append, phase4Go, hq]; exact ih room queue
    | some q =>
      by_cases ha : q.action ≠ some "4"
      · simp only [List.cons_append, phase4Go, hq]
        rw [if_pos ha, if_pos ha]
        exact ih _ _
      · simp only [List.cons_append, phase4Go, hq]
        rw [if_neg ha, if_neg ha]
        exact ih _ _

theorem phase4Go_preserve (l : List Nat) (i : Nat) :
    ∀ room queue, i ∉ l →
      (phase4Go l room queue).1.players[i]? = room.players[i]? := by
  induction l with
  | nil => intro room queue _; rfl
  | cons j rest ih =>
    intro room queue hi
    have hij : j ≠ i := fun h => hi (h ▸ List.mem_cons_self j rest)
    have hrest : i ∉ rest := fun h => hi (List.mem_cons_of_mem j h)
    cases hq : room.players[j]? with
    | none => simp only [phase4Go, hq]; exact ih room queue hrest
    | some q =>
      by_cases ha : q.action ≠ some "4"
      · simp only [phase4Go, hq]
        rw [if_pos ha, ih _ _ hrest]
        exact List.getElem?_set_ne hij
      · simp only [phase4Go, hq]
        rw [if_neg ha, ih _ _ hrest]
        exact List.getElem?_set_ne hij

/-- PHASE 4 deck bookkeeping: the available pile is untouched and the used
pile gains exactly the played cards of the processed non-flee players. -/
theorem phase4Go_deck (l : List Nat) :
    ∀ room queue, ∃ added,
      (phase4Go l room queue).1.deck.availableCards = room.deck.availableCards ∧
      (phase4Go l room queue).1.deck.usedCards = room.deck.usedCards ++ added ∧
      ∀ a ∈ added, ∃ j ∈ l, ∃ q, room.players[j]? = some q ∧
        q.action ≠ some "4" ∧ q.playedCard = some a := by
  induction l with
  | nil =>
    intro room queue
    exact ⟨[], rfl, (List.append_nil _).symm, by intro a h; cases h⟩
  | cons j rest ih =>
    intro room queue
    cases hq : room.players[j]? with
    | none =>
      obtain ⟨added, h1, h2, h3⟩ := ih room queue
      refine ⟨added, ?_, ?_, ?_⟩
      · simpa only [phase4Go, hq] using h1
      · simpa only [phase4Go, hq] using h2
      · intro a hma
        obtain ⟨j', hj', q', hq', ha', hc'⟩ := h3 a hma
        exact ⟨j', List.mem_cons_of_mem j hj', q', hq', ha', hc'⟩
    | some q =>
      by_cases ha : q.action ≠ some "4"
      · cases hpc : q.playedCard with
        | some c0 =>
          obtain ⟨added, h1, h2, h3⟩ := ih
            { room with players := room.players.set j { q with playedCard := none, needsGachaGod := false, hasDecided := false }, deck := room.deck.returnCard c0 }
            ((queue ++ (if q.action = some "1" then [(j, 1, "gacha")] else [])) ++ (if q.needsGachaGod = true then [(j, 2, "gachaGod")] else []))
          refine ⟨c0 :: added, ?_, ?_, ?_⟩
          · simp only [phase4Go, hq]
            rw [if_pos ha]
            simp only [hpc]
            rw [h1]
            rfl
          · simp only [phase4Go, hq]
            rw [if_pos ha]
            simp only [hpc]
            rw [h2]
            show (room.deck.usedCards ++ [c0]) ++ added = room.deck.usedCards ++ (c0 :: added)
            rw [List.append_assoc]
            rfl
          · intro a hma
            rcases List.mem_cons.mp hma with hma | hma
            · refine ⟨j, List.mem_cons_self j rest, q, hq, ha, ?_⟩
              rw [hma]
              exact hpc
            · obtain ⟨j', hj', q', hq', ha', hc'⟩ := h3 a hma
              by_cases hjj : j' = j
              · subst hjj
                have hlt : j' < room.players.length := getElem?_lt_length _ hq
                simp only [List.getElem?_set_self hlt] at hq'
                injection hq' with hq'e
                rw [← hq'e] at hc'
                simp at hc'
              · simp only [List.getElem?_set_ne (fun h => hjj h.symm)] at hq'
                exact ⟨j', List.mem_cons_of_mem j hj', q', hq', ha', hc'⟩
        | none =>
          obtain ⟨added, h1, h2, h3⟩ := ih
            { room with players := room.players.set j { q with playedCard := none, needsGachaGod := false, hasDecided := false }, deck := room.deck }
            ((queue ++ (if q.action = some "1" then [(j, 1, "gacha")] else [])) ++ (if q.needsGachaGod = true then [(j, 2, "gachaGod")] else []))
          refine ⟨added, ?_, ?_, ?_⟩
          · simp only [phase4Go, hq]
            rw [if_pos ha]
            simp only [hpc]
            rw [h1]
          · simp only [phase4Go, hq]
            rw [if_pos ha]
            simp only [hpc]
            rw [h2]
          · intro a hma
            obtain ⟨j', hj', q', hq', ha', hc'⟩ := h3 a hma
            by_cases hjj : j' = j
            · subst hjj
              have hlt : j' < room.players.length := getElem?_lt_length _ hq
              simp only [List.getElem?_set_self hlt] at hq'
              injection hq' with hq'e
              rw [← hq'e] at hc'
              simp at hc'
            · simp only [List.getElem?_set_ne (fun h => hjj h.symm)] at hq'
              exact ⟨j', List.mem_cons_of_mem j hj', q', hq', ha', hc'⟩
      · obtain ⟨added, h1, h2, h3⟩ := ih
          { room with players := room.players.set j { q with playedCard := none, hasDecided := false } } queue
        refine ⟨added, ?_, ?_, ?_⟩
        · simp only [phase4Go, hq]
          rw [if_neg ha]
          rw [h1]
        · simp only [phase4Go, hq]
          rw [if_neg ha]
          rw [h2]
        · intro a hma
          obtain ⟨j', hj', q', hq', ha', hc'⟩ := h3 a hma
          by_cases hjj : j' = j
          · subst hjj
            have hlt : j' < room.players.length := getElem?_lt_length _ hq
            simp only [List.getElem?_set_self hlt] at hq'
            injection hq' with hq'e
            rw [← hq'e] at hc'
            simp at hc'
          · simp only [List.getElem?_set_ne (fun h => hjj h.symm)] at hq'
            exact ⟨j', List.mem_cons_of_mem j hj', q', hq', ha', hc'⟩

/-- **C4** — flee isolation: in a resolved turn, a player whose action is
Flee (`"4"`) and who played a card gets final score 0 (under their player
key), ends with the card back in their hand and exactly one heart lost
(floored at 0), their card appears nowhere in the face-up reveal list, and
their card is not recycled: the draw pile's available pile is untouched
and every card added to the used pile is someone else's.  The player-key
and card-id distinctness hypotheses say no other player shares this
player's key or played a card with the same id. -/
theorem C4_flee_isolation (f : EventT → EventT) (room : Room) (i : Nat) (p : PlayerSt) (c : Card)
    (hp : room.players[i]? = some p) (ha : p.action = some "4") (hc : p.playedCard = some c)
    (hkeys : ∀ (j : Nat) (q : PlayerSt), room.players[j]? = some q → j ≠ i →
      getPlayerKey q ≠ getPlayerKey p)
    (hcard : ∀ (j : Nat) (q : PlayerSt), room.players[j]? = some q → j ≠ i →
      ∀ d, q.playedCard = some d → d.id ≠ c.id) :
    jsObjGet (resolveTurnCore f room).scores (getPlayerKey p) = some 0 ∧
    (resolveTurnCore f room).room.players[i]? = some { p with hand := p.hand ++ [c], heart := p.heart - 1, playedCard := none, hasDecided := false } ∧
    (∀ e ∈ (resolveTurnCore f room).display, e.2.id ≠ c.id) ∧
    (resolveTurnCore f room).room.deck.availableCards = room.deck.availableCards ∧
    ∃ added, (resolveTurnCore f room).room.deck.usedCards = room.deck.usedCards ++ added ∧
      ∀ a ∈ added, a.id ≠ c.id := by
  have hcs : p.playedCard.isSome := by rw [hc]; rfl
  have hmem : i ∈ playedIdxs room := mem_playedIdxs hp hcs
  obtain ⟨s, t, hsplit⟩ := List.append_of_mem hmem
  have hnd : (playedIdxs room).Nodup := playedIdxs_nodup room
  rw [hsplit, List.nodup_append] at hnd
  obtain ⟨hnds, hndit, hdisj⟩ := hnd
  have his : i ∉ s := fun h => hdisj h (List.mem_cons_self i t)
  have hit : i ∉ t := (List.nodup_cons.mp hndit).1
  have hts : ∀ j ∈ t, j ∉ s := fun j hjt hjs => hdisj hjs (List.mem_cons_of_mem i hjt)
  have htne : ∀ j ∈ t, j ≠ i := fun j hjt hji => hit (hji ▸ hjt)
  have hne : ¬((playedIdxs room).isEmpty = true) := by
    rw [hsplit]
    simp
  set r1 : Room := (phase1 f room).1 with hr1e
  set sm : List (String × StatMods) := collectStatMods (phase1 f room).2 with hsme
  have hact2 : p.action ≠ some "2" := by rw [ha]; simp
  have hr1p : r1.players[i]? = some p := phase1Go_preserve f (playedIdxs room) i p hact2 room [] hp
  have hr1d : r1.deck = room.deck := phase1Go_deck f (playedIdxs room) room []
  have hsv1 : ∀ j : Nat, ((r1.players[j]?).map stableView) = ((room.players[j]?).map stableView) :=
    fun j => phase1Go_stable f (playedIdxs room) room [] j
  set A : Room × List (String × ℚ) := phase2Go r1.competition r1.event sm s r1 [] with hAe
  set pF : PlayerSt := { p with hand := p.hand ++ [c], heart := p.heart - 1 } with hpFe
  set B : Room := { A.1 with players := A.1.players.set i pF } with hBe
  set r2pair : Room × List (String × ℚ) := phase2Go r1.competition r1.event sm t B (A.2 ++ [(getPlayerKey p, 0)]) with hr2e
  have hApi : A.1.players[i]? = some p := by
    rw [hAe, phase2Go_preserve r1.competition r1.event sm s i r1 [] his]
    exact hr1p
  have hsc : scoreAndApply r1.competition r1.event sm p = (pF, 0) := by
    rw [hpFe]
    simp [scoreAndApply, hc, ha]
  have hstep2 : phase2Go r1.competition r1.event sm (i :: t) A.1 A.2 = r2pair := by
    rw [hr2e, hBe]
    simp only [phase2Go, hApi, hsc]
  have hfull2 : phase2Go r1.competition r1.event sm (playedIdxs room) r1 [] = r2pair := by
    rw [hsplit, phase2Go_append r1.competition r1.event sm s (i :: t) r1 [], ← hAe]
    exact hstep2
  have hr2p : r2pair.1.players[i]? = some pF := by
    rw [hr2e, phase2Go_preserve r1.competition r1.event sm t i B (A.2 ++ [(getPlayerKey p, 0)]) hit]
    exact List.getElem?_set_self (getElem?_lt_length _ hApi)
  have hAst : ∀ j : Nat, ((A.1.players[j]?).map stableView) = ((room.players[j]?).map stableView) := by
    intro j
    rw [hAe]
    exact (phase2Go_stable r1.competition r1.event sm s j r1 []).trans (hsv1 j)
  have hBst : ∀ j : Nat, ((B.players[j]?).map stableView) = ((A.1.players[j]?).map stableView) :=
    fun j => set_stable A.1.players i p pF hApi rfl j
  have hr2st : ∀ j : Nat, ((r2pair.1.players[j]?).map stableView) = ((room.players[j]?).map stableView) := by
    intro j
    rw [hr2e]
    exact ((phase2Go_stable r1.competition r1.event sm t j B (A.2 ++ [(getPlayerKey p, 0)])).trans
      (hBst j)).trans (hAst j)
  have hr2d : r2pair.1.deck = room.deck := by
    rw [hr2e, phase2Go_deck r1.competition r1.event sm t B (A.2 ++ [(getPlayerKey p, 0)])]
    rw [show B.deck = A.1.deck from rfl, hAe, phase2Go_deck r1.competition r1.event sm s r1 []]
    exact hr1d
  have hkeyv : jsObjGet r2pair.2 (getPlayerKey p) = some 0 := by
    obtain ⟨tail, h1, h2⟩ :=
      phase2Go_scores_spec r1.competition r1.event sm t B (A.2 ++ [(getPlayerKey p, 0)])
    have hkeysne : ∀ e ∈ tail, e.1 ≠ getPlayerKey p := by
      intro e he
      obtain ⟨j, hjt, q, hq, hk⟩ := h2 e he
      have hji : j ≠ i := htne j hjt
      have hBj : B.players[j]? = A.1.players[j]? := List.getElem?_set_ne (fun h => hji h.symm)
      rw [hBj] at hq
      obtain ⟨q0, hq0, hsvq⟩ := stable_chain_some (hAst j) hq
      rw [hk, getPlayerKey_of_stable hsvq]
      exact hkeys j q0 hq0 hji
    rw [hr2e, h1,
      jsObjGet_append_right (A.2 ++ [(getPlayerKey p, 0)]) tail (getPlayerKey p) hkeysne,
      jsObjGet_snoc_self]
  set r3 : Room := phase3 r2pair.1 r2pair.2 (maxScoreOf r2pair.2) with hr3e
  have hpF4 : pF.action = some "4" := ha
  have hpFc : pF.playedCard = some c := hc
  have hr3p : r3.players[i]? = some pF := by
    rw [hr3e]
    simp only [phase3]
    split
    · exact hr2p
    · simp only [List.getElem?_map, hr2p, Option.map_some']
      congr 1
      have hkeyF : getPlayerKey pF = getPlayerKey p := rfl
      simp only [hc, ha, hpFc, hkeyF, hkeyv, hpF4, Option.isSome_some, reduceIte,
        String.reduceEq, Option.some.injEq, ite_self]
  have hr3d : r3.deck = room.deck := by
    rw [hr3e, phase3_deck]
    exact hr2d
  have hsv3 : ∀ j : Nat, ((r3.players[j]?).map stableView) = ((room.players[j]?).map stableView) := by
    intro j
    rw [hr3e]
    exact (phase3_stable r2pair.1 r2pair.2 (maxScoreOf r2pair.2) j).trans (hr2st j)
  have hdisp : ∀ e ∈ displayList r3, e.2.id ≠ c.id := by
    intro e he
    obtain ⟨j, q, hq, hqc, hqa⟩ := displayList_mem r3 e he
    obtain ⟨q0, hq0, hsvq⟩ := stable_chain_some (hsv3 j) hq
    obtain ⟨-, -, -, hpc0, hac0⟩ := stableView_fields hsvq
    by_cases hji : j = i
    · subst hji
      rw [hp] at hq0
      injection hq0 with hq0e
      exact absurd (by rw [hac0, ← hq0e]; exact ha) hqa
    · exact hcard j q0 hq0 hji e.2 (hpc0 ▸ hqc)
  set C : Room × List (Nat × Nat × String) := phase4Go s r3 [] with hCe
  set pG : PlayerSt := { p with hand := p.hand ++ [c], heart := p.heart - 1, playedCard := none, hasDecided := false } with hpGe
  set D : Room := { C.1 with players := C.1.players.set i pG } with hDe
  have hCpi : C.1.players[i]? = some pF := by
    rw [hCe, phase4Go_preserve s i r3 [] his]
    exact hr3p
  have hstep4 : phase4Go (i :: t) C.1 C.2 = phase4Go t D C.2 := by
    rw [hDe]
    simp only [phase4Go, hCpi]
    rw [if_neg (fun h => h hpF4)]
  have hfull4 : phase4Go (playedIdxs room) r3 [] = phase4Go t D C.2 := by
    rw [hsplit, phase4Go_append s (i :: t) r3 [], ← hCe]
    exact hstep4
  have hr4p : (phase4Go t D C.2).1.players[i]? = some pG := by
    rw [phase4Go_preserve t i D C.2 hit]
    exact List.getElem?_set_self (getElem?_lt_length _ hCpi)
  obtain ⟨addS, haS1, haS2, haS3⟩ := phase4Go_deck s r3 []
  obtain ⟨addT, haT1, haT2, haT3⟩ := phase4Go_deck t D C.2
  have h4avail : (phase4Go t D C.2).1.deck.availableCards = room.deck.availableCards := by
    rw [haT1, show D.deck = C.1.deck from rfl, hCe, haS1, hr3d]
  have h4used : (phase4Go t D C.2).1.deck.usedCards
      = room.deck.usedCards ++ (addS ++ addT) := by
    rw [haT2, show D.deck = C.1.deck from rfl, hCe, haS2, hr3d, List.append_assoc]
  have haddid : ∀ a ∈ addS ++ addT, a.id ≠ c.id := by
    intro a hma
    rcases List.mem_append.mp hma with hma | hma
    · obtain ⟨j, hjs, q, hq, hqa, hqc⟩ := haS3 a hma
      by_cases hji : j = i
      · subst hji
        rw [hr3p] at hq
        injection hq with hqe
        exact absurd (hqe ▸ hpF4) hqa
      · obtain ⟨q0, hq0, hsvq⟩ := stable_chain_some (hsv3 j) hq
        obtain ⟨-, -, -, hpc0, -⟩ := stableView_fields hsvq
        exact hcard j q0 hq0 hji a (hpc0 ▸ hqc)
    · obtain ⟨j, hjt, q, hq, hqa, hqc⟩ := haT3 a hma
      have hji : j ≠ i := htne j hjt
      have hDj : D.players[j]? = C.1.players[j]? := List.getElem?_set_ne (fun h => hji h.symm)
      rw [hDj, hCe, phase4Go_preserve s j r3 [] (hts j hjt)] at hq
      obtain ⟨q0, hq0, hsvq⟩ := stable_chain_some (hsv3 j) hq
      obtain ⟨-, -, -, hpc0, -⟩ := stableView_fields hsvq
      exact hcard j q0 hq0 hji a (hpc0 ▸ hqc)
  have hR : resolveTurnCore f room
      = ⟨clearTemporaryEffects (phase4Go t D C.2).1, (phase1 f room).2, sm, r2pair.2,
         maxScoreOf r2pair.2, displayList r3, (phase4Go t D C.2).2⟩ := by
    simp only [resolveTurnCore]
    rw [if_neg hne]
    rw [← hsme, ← hr1e]
    rw [hfull2, ← hr3e, hfull4]
  rw [hR]
  exact ⟨hkeyv, hr4p, hdisp, h4avail, addS ++ addT, h4used, haddid⟩

/-- Alice's flee card in the `C4` witness room. -/
def cardC4w : Card := ⟨1, "a", 3, 2, 1, "normal", "t", "g", "ch", none, none⟩

/-- Alice in the `C4` witness room: played `cardC4w` and chose Flee. -/
def playerC4w : PlayerSt :=
  ⟨"P1", "S1", "Alice", 4, [], some cardC4w, some "4", 0, true, false, false, false, none, false⟩

/-- A two-player room: Alice flees with her card, Bob competes with his. -/
def roomC4w : Room :=
  { players :=
      [playerC4w,
       ⟨"P2", "S2", "Bob", 4, [], some ⟨2, "b", 2, 2, 2, "normal", "t", "g", "ch", none, none⟩,
        some "3", 0, true, false, false, false, none, false⟩],
    protectedPlayers := [], skillBlockActive := [], divineCardActive := [],
    event := ⟨"None", "none", none, none, none, none⟩, competition := "vocal",
    deck := ⟨[], []⟩ }

/-- Witness for `C4_flee_isolation`: the hypotheses hold in `roomC4w` and
the theorem yields the five flee-isolation conclusions there. -/
theorem C4_flee_isolation_witness :
    (roomC4w.players[0]? = some playerC4w ∧ playerC4w.action = some "4" ∧
     playerC4w.playedCard = some cardC4w) ∧
    (jsObjGet (resolveTurnCore id roomC4w).scores (getPlayerKey playerC4w) = some 0 ∧
     (resolveTurnCore id roomC4w).room.players[0]? = some { playerC4w with hand := playerC4w.hand ++ [cardC4w], heart := playerC4w.heart - 1, playedCard := none, hasDecided := false } ∧
     (∀ e ∈ (resolveTurnCore id roomC4w).display, e.2.id ≠ cardC4w.id) ∧
     (resolveTurnCore id roomC4w).room.deck.availableCards = roomC4w.deck.availableCards ∧
     ∃ added, (resolveTurnCore id roomC4w).room.deck.usedCards
        = roomC4w.deck.usedCards ++ added ∧ ∀ a ∈ added, a.id ≠ cardC4w.id) := by
  refine ⟨⟨rfl, rfl, rfl⟩, ?_⟩
  refine C4_flee_isolation id roomC4w 0 playerC4w cardC4w rfl rfl rfl ?_ ?_
  · intro j q hq hj
    match j with
    | 0 => exact absurd rfl hj
    | 1 =>
      rw [show roomC4w.players[1]? = some ⟨"P2", "S2", "Bob", 4, [], some ⟨2, "b", 2, 2, 2, "normal", "t", "g", "ch", none, none⟩, some "3", 0, true, false, false, false, none, false⟩ from rfl] at hq
      injection hq with hq
      subst hq
      decide
    | n + 2 =>
      rw [show roomC4w.players[n + 2]? = (none : Option PlayerSt) from rfl] at hq
      cases hq
  · intro j q hq hj d hd
    match j with
    | 0 => exact absurd rfl hj
    | 1 =>
      rw [show roomC4w.players[1]? = some ⟨"P2", "S2", "Bob", 4, [], some ⟨2, "b", 2, 2, 2, "normal", "t", "g", "ch", none, none⟩, some "3", 0, true, false, false, false, none, false⟩ from rfl] at hq
      injection hq with hq
      subst hq
      injection hd with hd
      subst hd
      decide
    | n + 2 =>
      rw [show roomC4w.players[n + 2]? = (none : Option PlayerSt) from rfl] at hq
      cases hq

/-! ## C10: skill stat modifiers in a full resolution -/

/-- The event used in the `C10` resolution: no special effect. -/
def evC10 : EventT := ⟨"None", "none", none, none, none, none⟩

/-- Alice's golden-microphone card: vocal 10, dance 5, visual 5. -/
def cardC10a : Card := ⟨1, "mic", 10, 5, 5, "normal", "t", "g", "ch", none, some "golden microphone"⟩

/-- Alice: socket id `"S1"`, stable player id `"P1"`, Skill action. -/
def playerC10a : PlayerSt :=
  ⟨"P1", "S1", "Alice", 4, [], some cardC10a, some "2", 0, true, false, false, false, none, false⟩

/-- A two-player room in a vocal competition: Alice plays the
golden-microphone skill, Bob competes with a plain (5,5,5) card. -/
def roomC10 : Room :=
  { players :=
      [playerC10a,
       ⟨"P2", "S2", "Bob", 4, [], some ⟨2, "b", 5, 5, 5, "normal", "t", "g", "ch", none, none⟩,
        some "3", 0, true, false, false, false, none, false⟩],
    protectedPlayers := [], skillBlockActive := [], divineCardActive := [],
    event := evC10, competition := "vocal",
    deck := ⟨[], []⟩ }

/-- **C10** — refuted: in the resolved turn, Alice's golden-microphone +5
vocal modifier *is* collected (keyed by her socket id `"S1"`), yet the
lookup in PHASE 2 uses her player key `"P1"`, finds nothing, and her score
is computed from the *unmodified* card; the clamped modified stat
`max 1 (10 + 5) = 15` that the claim says is passed to the Scoring
Function would give a different score. -/
theorem C10_stat_modifier_key_mismatch :
    (resolveTurnCore id roomC10).statModifiers = [("S1", { vocal := some 5 })] ∧
    jsObjGet (resolveTurnCore id roomC10).statModifiers (getPlayerKey playerC10a) = none ∧
    (applyStatMods cardC10a (some { vocal := some 5 })).vocal = max 1 (cardC10a.vocal + 5) ∧
    jsObjGet (resolveTurnCore id roomC10).scores (getPlayerKey playerC10a)
      = some (calculateScore (some cardC10a) "vocal" (some evC10)) ∧
    calculateScore (some (applyStatMods cardC10a (some { vocal := some 5 }))) "vocal"
        (some evC10)
      ≠ calculateScore (some cardC10a) "vocal" (some evC10) := by
  refine ⟨by decide, by decide, by decide, ?_, ?_⟩
  · rfl
  · simp only [cardC10a, evC10, applyStatMods, truthyInt, calculateScore, getEventModifiers,
      String.reduceEq, reduceIte, Int.reduceEq]
    norm_num [round1, jsRound]
